import Mathlib

/-!
Verification of the nis2shield frontend core: a shallow embedding of the
CryptoService, SecureStorage, DeviceFingerprinter and SessionGuardian
modules, with theorems checking the repository's specification claims.
-/

namespace Nis2

/-! ### Byte-level encodings shared by the cipher model -/

/-- Little-endian base-256 digits, fuel-bounded (the fuel only needs to
dominate the digit count; `natToBytes` passes `n` itself). -/
def natToBytesGo : Nat → Nat → List Nat
  | _, 0 => []
  | 0, _ + 1 => []
  | fuel + 1, n + 1 => (n + 1) % 256 :: natToBytesGo fuel ((n + 1) / 256)

/-- Little-endian base-256 digits of a natural number (platform byte encoding
used by the ideal-cipher model of the WebCrypto AES-GCM primitive). -/
def natToBytes (n : Nat) : List Nat := natToBytesGo n n

/-- Inverse of `natToBytes`. -/
def bytesToNat : List Nat → Nat
  | [] => 0
  | b :: bs => b + 256 * bytesToNat bs

theorem bytesToNat_natToBytesGo (fuel : Nat) :
    ∀ n, n ≤ fuel → bytesToNat (natToBytesGo fuel n) = n := by
  induction fuel with
  | zero =>
      intro n hn
      match n, hn with
      | 0, _ => simp [natToBytesGo, bytesToNat]
  | succ f ih =>
      intro n hn
      match n with
      | 0 => simp [natToBytesGo, bytesToNat]
      | m + 1 =>
          rw [natToBytesGo, bytesToNat]
          rw [ih ((m + 1) / 256) (by omega)]
          omega

theorem bytesToNat_natToBytes (n : Nat) : bytesToNat (natToBytes n) = n :=
  bytesToNat_natToBytesGo n n (Nat.le_refl n)

theorem natToBytesGo_lt (fuel : Nat) : ∀ n, ∀ b ∈ natToBytesGo fuel n, b < 256 := by
  induction fuel with
  | zero =>
      intro n b hb
      match n with
      | 0 => simp [natToBytesGo] at hb
      | m + 1 => simp [natToBytesGo] at hb
  | succ f ih =>
      intro n b hb
      match n with
      | 0 => simp [natToBytesGo] at hb
      | m + 1 =>
          rw [natToBytesGo] at hb
          rcases List.mem_cons.mp hb with h | h
          · omega
          · exact ih _ b h

theorem natToBytes_lt (n : Nat) : ∀ b ∈ natToBytes n, b < 256 :=
  natToBytesGo_lt n n

/-- Injective encoding of a list of naturals as one natural, via `Nat.pair`. -/
def listToNat : List Nat → Nat
  | [] => 0
  | x :: xs => Nat.pair x (listToNat xs) + 1

/-- Inverse of `listToNat`. -/
def natToList (n : Nat) : List Nat :=
  match n with
  | 0 => []
  | m + 1 => (Nat.unpair m).1 :: natToList (Nat.unpair m).2
decreasing_by
  calc (Nat.unpair m).2 ≤ m := Nat.unpair_right_le m
    _ < m + 1 := Nat.lt_succ_self m

theorem natToList_listToNat (l : List Nat) : natToList (listToNat l) = l := by
  induction l with
  | nil => simp [listToNat, natToList]
  | cons x xs ih =>
    rw [listToNat, natToList]
    simp [Nat.unpair_pair, ih]

/-! ### Base64 (model of the platform primitives btoa / atob) -/

/-- Character code of the base64 alphabet entry for a sextet. -/
def sextetCode (n : Nat) : Nat :=
  if n < 26 then 65 + n
  else if n < 52 then 97 + (n - 26)
  else if n < 62 then 48 + (n - 52)
  else if n = 62 then 43
  else 47

/-- Partial inverse of `sextetCode` (None for characters outside the alphabet). -/
def codeToSextet (m : Nat) : Option Nat :=
  if 65 ≤ m ∧ m ≤ 90 then some (m - 65)
  else if 97 ≤ m ∧ m ≤ 122 then some (26 + (m - 97))
  else if 48 ≤ m ∧ m ≤ 57 then some (52 + (m - 48))
  else if m = 43 then some 62
  else if m = 47 then some 63
  else none

theorem codeToSextet_sextetCode (n : Nat) (h : n < 64) :
    codeToSextet (sextetCode n) = some n := by
  unfold sextetCode codeToSextet
  split_ifs <;> simp_all <;> omega

theorem sextetCode_valid (n : Nat) : (sextetCode n).isValidChar := by
  unfold sextetCode
  unfold Nat.isValidChar
  split_ifs <;> omega

theorem sextetCode_ne_eq (n : Nat) : sextetCode n ≠ 61 := by
  unfold sextetCode
  split_ifs <;> omega

/-- One character of base64 output. -/
def b64Char (n : Nat) : Char := Char.ofNat (sextetCode n)

theorem toNat_b64Char (n : Nat) : (b64Char n).toNat = sextetCode n := by
  have h := sextetCode_valid n
  simp only [b64Char, Char.ofNat, h, dif_pos]
  simp [Char.ofNatAux, Char.toNat, UInt32.toNat, BitVec.toNat_ofNatLt]

theorem b64Char_ne_pad (n : Nat) : b64Char n ≠ '=' := by
  intro h
  have := congrArg Char.toNat h
  rw [toNat_b64Char] at this
  exact sextetCode_ne_eq n (by simpa using this)

/-- Model of `btoa` composed with the byte-string of `arrayBufferToBase64`:
base64-encodes a byte list, with '=' padding. -/
def b64encode : List Nat → List Char
  | [] => []
  | [b1] => [b64Char (b1 / 4), b64Char (b1 % 4 * 16), '=', '=']
  | [b1, b2] => [b64Char (b1 / 4), b64Char (b1 % 4 * 16 + b2 / 16), b64Char (b2 % 16 * 4), '=']
  | b1 :: b2 :: b3 :: rest =>
      b64Char (b1 / 4) :: b64Char (b1 % 4 * 16 + b2 / 16) ::
      b64Char (b2 % 16 * 4 + b3 / 64) :: b64Char (b3 % 64) :: b64encode rest

/-- Model of `atob` composed with `base64ToArrayBuffer`: decodes a padded
base64 string to bytes; `none` models the DOMException `atob` throws. -/
def b64decode : List Char → Option (List Nat)
  | [] => some []
  | c1 :: c2 :: c3 :: c4 :: rest =>
      match codeToSextet c1.toNat, codeToSextet c2.toNat with
      | some s1, some s2 =>
          if c3 = '=' then
            if c4 = '=' ∧ rest = [] then some [s1 * 4 + s2 / 16] else none
          else
            match codeToSextet c3.toNat with
            | some s3 =>
                if c4 = '=' then
                  if rest = [] then some [s1 * 4 + s2 / 16, s2 % 16 * 16 + s3 / 4] else none
                else
                  match codeToSextet c4.toNat with
                  | some s4 =>
                      (b64decode rest).map fun bs =>
                        (s1 * 4 + s2 / 16) :: (s2 % 16 * 16 + s3 / 4) :: (s3 % 4 * 64 + s4) :: bs
                  | none => none
            | none => none
      | _, _ => none
  | _ => none

theorem codeToSextet_b64Char (n : Nat) (h : n < 64) :
    codeToSextet (b64Char n).toNat = some n := by
  rw [toNat_b64Char]
  exact codeToSextet_sextetCode n h

theorem b64decode_b64encode (l : List Nat) (hb : ∀ b ∈ l, b < 256) :
    b64decode (b64encode l) = some l := by
  induction l using b64encode.induct with
  | case1 => simp [b64encode, b64decode]
  | case2 b1 =>
    have h1 : b1 < 256 := hb b1 (by simp)
    rw [b64encode, b64decode]
    rw [codeToSextet_b64Char _ (by omega), codeToSextet_b64Char _ (by omega)]
    simp
    omega
  | case3 b1 b2 =>
    have h1 : b1 < 256 := hb b1 (by simp)
    have h2 : b2 < 256 := hb b2 (by simp)
    rw [b64encode, b64decode]
    rw [codeToSextet_b64Char _ (by omega), codeToSextet_b64Char _ (by omega)]
    simp [b64Char_ne_pad]
    rw [codeToSextet_b64Char _ (by omega)]
    simp
    constructor <;> omega
  | case4 b1 b2 b3 rest ih =>
    have h1 : b1 < 256 := hb b1 (by simp)
    have h2 : b2 < 256 := hb b2 (by simp)
    have h3 : b3 < 256 := hb b3 (by simp)
    have hrest : ∀ b ∈ rest, b < 256 := fun b h => hb b (by simp [h])
    rw [b64encode, b64decode]
    rw [codeToSextet_b64Char _ (by omega), codeToSextet_b64Char _ (by omega)]
    simp only [b64Char_ne_pad, if_neg, reduceIte]
    rw [codeToSextet_b64Char _ (by omega)]
    simp only [b64Char_ne_pad, reduceIte]
    rw [codeToSextet_b64Char _ (by omega)]
    rw [ih hrest]
    simp
    refine ⟨by omega, by omega, by omega⟩

theorem b64encode_ne_nil (l : List Nat) (h : l ≠ []) : b64encode l ≠ [] := by
  match l with
  | [] => exact absurd rfl h
  | [b1] => simp [b64encode]
  | [b1, b2] => simp [b64encode]
  | b1 :: b2 :: b3 :: rest => simp [b64encode]

/-! ### UTF-8 (model of the platform primitives TextEncoder / TextDecoder) -/

/-- UTF-8 byte sequence of one code point. -/
def utf8EncodeCp (c : Nat) : List Nat :=
  if c < 0x80 then [c]
  else if c < 0x800 then [0xC0 + c / 64, 0x80 + c % 64]
  else if c < 0x10000 then [0xE0 + c / 64 / 64, 0x80 + c / 64 % 64, 0x80 + c % 64]
  else [0xF0 + c / 64 / 64 / 64, 0x80 + c / 64 / 64 % 64, 0x80 + c / 64 % 64, 0x80 + c % 64]

/-- Decodes a UTF-8 byte list to code points, fuel-bounded (one unit of fuel
per decoded code point); invalid sequences become U+FFFD, mirroring
TextDecoder's non-fatal replacement behavior. -/
def utf8DecodeGo : Nat → List Nat → List Nat
  | _, [] => []
  | 0, _ => []
  | fuel + 1, b :: rest =>
    if b < 0x80 then b :: utf8DecodeGo fuel rest
    else if b < 0xC0 then 0xFFFD :: utf8DecodeGo fuel rest
    else if b < 0xE0 then
      match rest with
      | b1 :: rest1 =>
          if 0x80 ≤ b1 ∧ b1 < 0xC0 then
            ((b - 0xC0) * 64 + (b1 - 0x80)) :: utf8DecodeGo fuel rest1
          else 0xFFFD :: utf8DecodeGo fuel (b1 :: rest1)
      | [] => [0xFFFD]
    else if b < 0xF0 then
      match rest with
      | b1 :: b2 :: rest2 =>
          if 0x80 ≤ b1 ∧ b1 < 0xC0 ∧ 0x80 ≤ b2 ∧ b2 < 0xC0 then
            ((b - 0xE0) * 4096 + (b1 - 0x80) * 64 + (b2 - 0x80)) :: utf8DecodeGo fuel rest2
          else 0xFFFD :: utf8DecodeGo fuel (b1 :: b2 :: rest2)
      | _ => [0xFFFD]
    else if b < 0xF8 then
      match rest with
      | b1 :: b2 :: b3 :: rest3 =>
          if 0x80 ≤ b1 ∧ b1 < 0xC0 ∧ 0x80 ≤ b2 ∧ b2 < 0xC0 ∧ 0x80 ≤ b3 ∧ b3 < 0xC0 then
            ((b - 0xF0) * 262144 + (b1 - 0x80) * 4096 + (b2 - 0x80) * 64 + (b3 - 0x80))
              :: utf8DecodeGo fuel rest3
          else 0xFFFD :: utf8DecodeGo fuel (b1 :: b2 :: b3 :: rest3)
      | _ => [0xFFFD]
    else 0xFFFD :: utf8DecodeGo fuel rest

theorem utf8DecodeGo_enc1 (fuel c : Nat) (h1 : c < 0x80) (rest : List Nat) :
    utf8DecodeGo (fuel + 1) (c :: rest) = c :: utf8DecodeGo fuel rest := by
  rw [utf8DecodeGo.eq_def]
  dsimp only
  rw [if_pos h1]

theorem utf8DecodeGo_enc2 (fuel c : Nat) (h1 : ¬ c < 0x80) (h2 : c < 0x800) (rest : List Nat) :
    utf8DecodeGo (fuel + 1) ((0xC0 + c / 64) :: (0x80 + c % 64) :: rest)
      = c :: utf8DecodeGo fuel rest := by
  rw [utf8DecodeGo.eq_def]
  dsimp only
  simp only [eq_false (show ¬ (0xC0 + c / 64 < 0x80) by omega),
    eq_false (show ¬ (0xC0 + c / 64 < 0xC0) by omega),
    eq_true (show 0xC0 + c / 64 < 0xE0 by omega),
    eq_true (show 0x80 ≤ 0x80 + c % 64 ∧ 0x80 + c % 64 < 0xC0 from ⟨by omega, by omega⟩),
    if_true, if_false]
  rw [List.cons.injEq]
  exact ⟨by omega, rfl⟩

theorem utf8DecodeGo_enc3 (fuel c : Nat) (h2 : ¬ c < 0x800) (h3 : c < 0x10000)
    (rest : List Nat) :
    utf8DecodeGo (fuel + 1)
        ((0xE0 + c / 64 / 64) :: (0x80 + c / 64 % 64) :: (0x80 + c % 64) :: rest)
      = c :: utf8DecodeGo fuel rest := by
  rw [utf8DecodeGo.eq_def]
  dsimp only
  simp only [eq_false (show ¬ (0xE0 + c / 64 / 64 < 0x80) by omega),
    eq_false (show ¬ (0xE0 + c / 64 / 64 < 0xC0) by omega),
    eq_false (show ¬ (0xE0 + c / 64 / 64 < 0xE0) by omega),
    eq_true (show 0xE0 + c / 64 / 64 < 0xF0 by omega),
    eq_true (show 0x80 ≤ 0x80 + c / 64 % 64 ∧ 0x80 + c / 64 % 64 < 0xC0 ∧
      0x80 ≤ 0x80 + c % 64 ∧ 0x80 + c % 64 < 0xC0 from
      ⟨by omega, by omega, by omega, by omega⟩),
    if_true, if_false]
  rw [List.cons.injEq]
  exact ⟨by omega, rfl⟩

theorem utf8DecodeGo_enc4 (fuel c : Nat) (h3 : ¬ c < 0x10000) (h4 : c < 0x110000)
    (rest : List Nat) :
    utf8DecodeGo (fuel + 1)
        ((0xF0 + c / 64 / 64 / 64) :: (0x80 + c / 64 / 64 % 64) ::
          (0x80 + c / 64 % 64) :: (0x80 + c % 64) :: rest)
      = c :: utf8DecodeGo fuel rest := by
  rw [utf8DecodeGo.eq_def]
  dsimp only
  simp only [eq_false (show ¬ (0xF0 + c / 64 / 64 / 64 < 0x80) by omega),
    eq_false (show ¬ (0xF0 + c / 64 / 64 / 64 < 0xC0) by omega),
    eq_false (show ¬ (0xF0 + c / 64 / 64 / 64 < 0xE0) by omega),
    eq_false (show ¬ (0xF0 + c / 64 / 64 / 64 < 0xF0) by omega),
    eq_true (show 0xF0 + c / 64 / 64 / 64 < 0xF8 by omega),
    eq_true (show 0x80 ≤ 0x80 + c / 64 / 64 % 64 ∧ 0x80 + c / 64 / 64 % 64 < 0xC0 ∧
      0x80 ≤ 0x80 + c / 64 % 64 ∧ 0x80 + c / 64 % 64 < 0xC0 ∧
      0x80 ≤ 0x80 + c % 64 ∧ 0x80 + c % 64 < 0xC0 from
      ⟨by omega, by omega, by omega, by omega, by omega, by omega⟩),
    if_true, if_false]
  rw [List.cons.injEq]
  exact ⟨by omega, rfl⟩

theorem utf8DecodeGo_encode (fuel : Nat) (c : Nat) (h : c < 0x110000) (rest : List Nat) :
    utf8DecodeGo (fuel + 1) (utf8EncodeCp c ++ rest) = c :: utf8DecodeGo fuel rest := by
  unfold utf8EncodeCp
  split_ifs with h1 h2 h3
  · rw [List.cons_append, List.nil_append]
    exact utf8DecodeGo_enc1 fuel c h1 rest
  · rw [List.cons_append, List.cons_append, List.nil_append]
    exact utf8DecodeGo_enc2 fuel c h1 h2 rest
  · rw [List.cons_append, List.cons_append, List.cons_append, List.nil_append]
    exact utf8DecodeGo_enc3 fuel c h2 h3 rest
  · rw [List.cons_append, List.cons_append, List.cons_append, List.cons_append,
      List.nil_append]
    exact utf8DecodeGo_enc4 fuel c h3 h rest

theorem utf8EncodeCp_lt (c : Nat) (hc : c < 0x110000) : ∀ b ∈ utf8EncodeCp c, b < 256 := by
  unfold utf8EncodeCp
  split_ifs <;> intro b hb <;> simp_all <;> omega

/-- Model of `new TextEncoder().encode(s)`. -/
def utf8EncodeString : List Char → List Nat
  | [] => []
  | c :: cs => utf8EncodeCp c.toNat ++ utf8EncodeString cs

/-- Model of `new TextDecoder().decode(bytes)` (non-fatal mode, total). -/
def utf8DecodeString (l : List Nat) : List Char :=
  (utf8DecodeGo l.length l).map Char.ofNat

theorem char_toNat_lt (c : Char) : c.toNat < 0x110000 := by
  have h := c.valid
  simp only [Char.toNat]
  rcases h with h | h
  · omega
  · omega

theorem utf8DecodeGo_encodeString (s : List Char) :
    ∀ fuel, s.length ≤ fuel →
      utf8DecodeGo fuel (utf8EncodeString s) = s.map Char.toNat := by
  induction s with
  | nil => intro fuel _; cases fuel <;> simp [utf8EncodeString, utf8DecodeGo]
  | cons c cs ih =>
    intro fuel hf
    match fuel with
    | fuel' + 1 =>
      rw [utf8EncodeString, utf8DecodeGo_encode fuel' c.toNat (char_toNat_lt c)]
      rw [ih fuel' (by simp only [List.length_cons] at hf; omega)]
      rfl

theorem length_le_utf8EncodeString (s : List Char) :
    s.length ≤ (utf8EncodeString s).length := by
  induction s with
  | nil => simp [utf8EncodeString]
  | cons c cs ih =>
    rw [utf8EncodeString, List.length_append, List.length_cons]
    have : 1 ≤ (utf8EncodeCp c.toNat).length := by
      unfold utf8EncodeCp
      split_ifs <;> simp
    omega

theorem utf8_roundtrip (s : List Char) :
    utf8DecodeString (utf8EncodeString s) = s := by
  unfold utf8DecodeString
  rw [utf8DecodeGo_encodeString s _ (length_le_utf8EncodeString s)]
  rw [List.map_map]
  have : (Char.ofNat ∘ Char.toNat) = id := by
    funext c
    exact Char.ofNat_toNat c
  rw [this, List.map_id]

theorem utf8EncodeString_lt (s : List Char) : ∀ b ∈ utf8EncodeString s, b < 256 := by
  induction s with
  | nil => simp [utf8EncodeString]
  | cons c cs ih =>
    intro b hb
    rw [utf8EncodeString, List.mem_append] at hb
    rcases hb with h | h
    · exact utf8EncodeCp_lt c.toNat (char_toNat_lt c) b h
    · exact ih b h

/-! ### CryptoService (src/unnamed/part_004)

The WebCrypto `crypto.subtle` AES-GCM primitive is external to the
repository; it is modelled as an ideal authenticated cipher: keys are
opaque identifiers handed out freshly by `generateKey`, and a ciphertext
is an injective byte encoding of (key, iv, plaintext) that decrypts only
under the matching key and iv. The surrounding logic (key caching,
base64/UTF-8 conversions, null-on-failure contract) is translated from
the source. -/

/-- `EncryptedData` from types.ts: base64-encoded iv and ciphertext. -/
structure EncryptedData where
  iv : List Char
  data : List Char
deriving DecidableEq, Repr

/-- Ideal-cipher model of `crypto.subtle.encrypt` with AES-GCM. -/
def subtleEncrypt (key : Nat) (iv : List Nat) (data : List Nat) : List Nat :=
  natToBytes (Nat.pair key (Nat.pair (listToNat iv) (listToNat data)))

/-- Ideal-cipher model of `crypto.subtle.decrypt`: recovers the plaintext
only under the encrypting key and iv; `none` models the rejection
(thrown exception) on a key/iv mismatch. -/
def subtleDecrypt (key : Nat) (iv : List Nat) (ct : List Nat) : Option (List Nat) :=
  let m := bytesToNat ct
  let k := (Nat.unpair m).1
  let rest := (Nat.unpair m).2
  if k = key ∧ natToList (Nat.unpair rest).1 = iv then
    some (natToList (Nat.unpair rest).2)
  else none

theorem subtleDecrypt_subtleEncrypt (key : Nat) (iv data : List Nat) :
    subtleDecrypt key iv (subtleEncrypt key iv data) = some data := by
  unfold subtleEncrypt subtleDecrypt
  simp [bytesToNat_natToBytes, Nat.unpair_pair, natToList_listToNat]

theorem subtleEncrypt_lt (key : Nat) (iv data : List Nat) :
    ∀ b ∈ subtleEncrypt key iv data, b < 256 :=
  natToBytes_lt _

theorem natToBytes_ne_nil (n : Nat) (h : n ≠ 0) : natToBytes n ≠ [] := by
  match n, h with
  | m + 1, _ => simp [natToBytes, natToBytesGo]

theorem subtleEncrypt_ne_nil (key : Nat) (iv data : List Nat) (h : iv ≠ []) :
    subtleEncrypt key iv data ≠ [] := by
  unfold subtleEncrypt
  apply natToBytes_ne_nil
  have h1 : listToNat iv ≠ 0 := by
    cases iv with
    | nil => exact absurd rfl h
    | cons x xs => simp [listToNat]
  have h2 : Nat.pair (listToNat iv) (listToNat data) ≠ 0 := by
    intro he
    have := congrArg (fun n => (Nat.unpair n).1) he
    simp [Nat.unpair_pair] at this
    exact h1 this
  intro he
  have := congrArg (fun n => (Nat.unpair n).2) he
  simp [Nat.unpair_pair] at this
  exact h2 this

/-- State of one CryptoService instance. `key` mirrors `this.key`; the
single-flight `keyPromise` collapses in this sequential embedding.
`keyCtr` models the freshness of WebCrypto key generation: every
`generateKey` call yields a key identifier never handed out before. -/
structure CryptoState where
  key : Option Nat
  keyCtr : Nat
deriving DecidableEq, Repr

/-- A freshly constructed CryptoService (`new CryptoService()`). -/
def CryptoState.init : CryptoState := { key := none, keyCtr := 0 }

namespace CryptoService

/-- `getKey()`: returns the cached key or generates (and caches) a fresh one. -/
def getKey (st : CryptoState) : Nat × CryptoState :=
  match st.key with
  | some k => (k, st)
  | none => (st.keyCtr, { key := some st.keyCtr, keyCtr := st.keyCtr + 1 })

/-- `encrypt(plaintext)`: UTF-8 encode, encrypt under the current key with
the supplied fresh random iv bytes, base64-encode iv and ciphertext. -/
def encrypt (st : CryptoState) (iv : List Nat) (plaintext : List Char) :
    EncryptedData × CryptoState :=
  let (key, st') := getKey st
  let encoded := utf8EncodeString plaintext
  let ct := subtleEncrypt key iv encoded
  ({ iv := b64encode iv, data := b64encode ct }, st')

/-- `decrypt(encrypted)`: base64-decode iv and data, attempt decryption with
the current key, UTF-8 decode; any failure yields `null` (the whole body is
wrapped in try/catch in the source). -/
def decrypt (st : CryptoState) (encrypted : EncryptedData) :
    Option (List Char) × CryptoState :=
  let (key, st') := getKey st
  match b64decode encrypted.iv, b64decode encrypted.data with
  | some iv, some data =>
      match subtleDecrypt key iv data with
      | some pt => (some (utf8DecodeString pt), st')
      | none => (none, st')
  | _, _ => (none, st')

/-- `clearKey()`: discards the cached key and any in-flight generation. -/
def clearKey (st : CryptoState) : CryptoState :=
  { st with key := none }

end CryptoService

/-- Well-formedness: every key ever handed out is below the counter. -/
def CryptoWf (st : CryptoState) : Prop :=
  ∀ k, st.key = some k → k < st.keyCtr

theorem cryptoWf_init : CryptoWf CryptoState.init := by
  intro k h
  simp [CryptoState.init] at h

theorem getKey_cached (st : CryptoState) (k : Nat) (h : st.key = some k) :
    CryptoService.getKey st = (k, st) := by
  simp [CryptoService.getKey, h]

theorem getKey_key (st : CryptoState) :
    (CryptoService.getKey st).2.key = some (CryptoService.getKey st).1 := by
  cases h : st.key with
  | some k => simp [CryptoService.getKey, h]
  | none => simp [CryptoService.getKey, h]

theorem getKey_wf (st : CryptoState) (hwf : CryptoWf st) :
    CryptoWf (CryptoService.getKey st).2 := by
  cases h : st.key with
  | some k => simpa [CryptoService.getKey, h] using hwf
  | none =>
      intro k' hk'
      simp [CryptoService.getKey, h] at hk'
      simp [CryptoService.getKey, h, hk']

theorem getKey_lt (st : CryptoState) (hwf : CryptoWf st) :
    (CryptoService.getKey st).1 < (CryptoService.getKey st).2.keyCtr := by
  cases h : st.key with
  | some k => simpa [CryptoService.getKey, h] using hwf k h
  | none => simp [CryptoService.getKey, h]

theorem encrypt_eq (st : CryptoState) (iv : List Nat) (s : List Char) :
    CryptoService.encrypt st iv s =
      ({ iv := b64encode iv,
         data := b64encode (subtleEncrypt (CryptoService.getKey st).1 iv
           (utf8EncodeString s)) },
       (CryptoService.getKey st).2) := rfl

theorem decrypt_eq_found (st : CryptoState) (e : EncryptedData) (iv data : List Nat)
    (hiv : b64decode e.iv = some iv) (hdata : b64decode e.data = some data) :
    CryptoService.decrypt st e =
      (match subtleDecrypt (CryptoService.getKey st).1 iv data with
       | some pt => (some (utf8DecodeString pt), (CryptoService.getKey st).2)
       | none => (none, (CryptoService.getKey st).2)) := by
  unfold CryptoService.decrypt
  rw [hiv, hdata]

/-- Round-trip core: decrypting right after encrypting on the same state. -/
theorem decrypt_encrypt (st : CryptoState) (iv : List Nat)
    (hiv : ∀ b ∈ iv, b < 256) (s : List Char) :
    (CryptoService.decrypt (CryptoService.encrypt st iv s).2
      (CryptoService.encrypt st iv s).1).1 = some s := by
  rw [encrypt_eq]
  rw [decrypt_eq_found _ _ iv _ (b64decode_b64encode iv hiv)
    (b64decode_b64encode _ (subtleEncrypt_lt _ _ _))]
  rw [getKey_cached _ _ (getKey_key st)]
  rw [subtleDecrypt_subtleEncrypt]
  simp [utf8_roundtrip]

/-- The operations a caller can perform on one CryptoService instance. -/
inductive CryptoOp
  | getKeyOp
  | encryptOp (iv : List Nat) (plaintext : List Char)
  | decryptOp (payload : EncryptedData)
  | clearKeyOp
deriving DecidableEq

/-- State effect of one operation. -/
def runOp (st : CryptoState) : CryptoOp → CryptoState
  | .getKeyOp => (CryptoService.getKey st).2
  | .encryptOp iv pt => (CryptoService.encrypt st iv pt).2
  | .decryptOp e => (CryptoService.decrypt st e).2
  | .clearKeyOp => CryptoService.clearKey st

/-- State effect of a sequence of operations. -/
def runOps (st : CryptoState) : List CryptoOp → CryptoState
  | [] => st
  | op :: ops => runOps (runOp st op) ops

theorem decrypt_state (st : CryptoState) (e : EncryptedData) :
    (CryptoService.decrypt st e).2 = (CryptoService.getKey st).2 := by
  unfold CryptoService.decrypt
  cases b64decode e.iv <;> cases b64decode e.data <;> simp
  cases subtleDecrypt (CryptoService.getKey st).1 _ _ <;> simp

theorem key_runOp (st : CryptoState) (k : Nat) (h : st.key = some k)
    (op : CryptoOp) (hop : op ≠ CryptoOp.clearKeyOp) : (runOp st op).key = some k := by
  cases op with
  | getKeyOp => rw [runOp, getKey_cached st k h]; exact h
  | encryptOp iv pt => rw [runOp, encrypt_eq]; rw [getKey_cached st k h]; exact h
  | decryptOp e => rw [runOp, decrypt_state, getKey_cached st k h]; exact h
  | clearKeyOp => exact absurd rfl hop

theorem key_runOps (ops : List CryptoOp) (st : CryptoState) (k : Nat) (h : st.key = some k)
    (hops : CryptoOp.clearKeyOp ∉ ops) : (runOps st ops).key = some k := by
  induction ops generalizing st with
  | nil => exact h
  | cons op ops ih =>
      rw [runOps]
      have h1 : op ≠ CryptoOp.clearKeyOp := by
        intro he
        exact hops (by simp [he])
      exact ih _ (key_runOp st k h op h1) (fun hm => hops (by simp [hm]))

/-- Claim C1 (encryption round-trip). For every string, encrypting it and
then decrypting the payload on the same CryptoService instance returns the
original string, also after any further getKey/encrypt/decrypt operations,
as long as no clearKey intervened. -/
theorem encryption_roundtrip (st : CryptoState) (iv : List Nat)
    (hiv : ∀ b ∈ iv, b < 256) (s : List Char) (ops : List CryptoOp)
    (hops : CryptoOp.clearKeyOp ∉ ops) :
    (CryptoService.decrypt (runOps (CryptoService.encrypt st iv s).2 ops)
      (CryptoService.encrypt st iv s).1).1 = some s := by
  rw [encrypt_eq]
  have hk : (runOps (CryptoService.getKey st).2 ops).key =
      some (CryptoService.getKey st).1 :=
    key_runOps ops _ _ (getKey_key st) hops
  rw [decrypt_eq_found _ _ iv _ (b64decode_b64encode iv hiv)
    (b64decode_b64encode _ (subtleEncrypt_lt _ _ _))]
  rw [getKey_cached _ _ hk]
  rw [subtleDecrypt_subtleEncrypt]
  simp [utf8_roundtrip]

/-- Witness for `encryption_roundtrip`: a concrete non-ASCII two-character
string round-trips through the cipher. -/
theorem encryption_roundtrip_witness :
    (∀ b ∈ [0, 1, 2, 3, 4, 5, 6, 7, 8, 9, 10, 11], b < 256) ∧
    CryptoOp.clearKeyOp ∉ ([CryptoOp.getKeyOp] : List CryptoOp) ∧
    (CryptoService.decrypt
      (runOps (CryptoService.encrypt CryptoState.init
        [0, 1, 2, 3, 4, 5, 6, 7, 8, 9, 10, 11] ['é', '¡']).2 [CryptoOp.getKeyOp])
      (CryptoService.encrypt CryptoState.init
        [0, 1, 2, 3, 4, 5, 6, 7, 8, 9, 10, 11] ['é', '¡']).1).1 = some ['é', '¡'] :=
  ⟨by decide, by decide,
    encryption_roundtrip CryptoState.init _ (by decide) _ _ (by decide)⟩

/-- Lower bound on every key the instance can still produce. -/
def KeyLB (c : Nat) (st : CryptoState) : Prop :=
  (∀ k, st.key = some k → c ≤ k) ∧ c ≤ st.keyCtr

theorem keyLB_getKey (c : Nat) (st : CryptoState) (h : KeyLB c st) :
    c ≤ (CryptoService.getKey st).1 ∧ KeyLB c (CryptoService.getKey st).2 := by
  obtain ⟨ha, hb⟩ := h
  cases hk : st.key with
  | some k =>
      rw [getKey_cached st k hk]
      exact ⟨ha k hk, ha, hb⟩
  | none =>
      simp only [CryptoService.getKey, hk]
      refine ⟨hb, ?_, by simpa using Nat.le_succ_of_le hb⟩
      intro k' hk'
      simp at hk'
      omega

theorem keyLB_runOp (c : Nat) (st : CryptoState) (h : KeyLB c st) (op : CryptoOp) :
    KeyLB c (runOp st op) := by
  cases op with
  | getKeyOp => exact (keyLB_getKey c st h).2
  | encryptOp iv pt => rw [runOp, encrypt_eq]; exact (keyLB_getKey c st h).2
  | decryptOp e => rw [runOp, decrypt_state]; exact (keyLB_getKey c st h).2
  | clearKeyOp =>
      refine ⟨?_, h.2⟩
      intro k hk
      rw [runOp] at hk
      unfold CryptoService.clearKey at hk
      simp at hk

theorem keyLB_runOps (c : Nat) (ops : List CryptoOp) (st : CryptoState) (h : KeyLB c st) :
    KeyLB c (runOps st ops) := by
  induction ops generalizing st with
  | nil => exact h
  | cons op ops ih => exact ih _ (keyLB_runOp c st h op)

theorem subtleDecrypt_wrong_key (key k' : Nat) (hne : k' ≠ key) (iv iv' data : List Nat) :
    subtleDecrypt k' iv' (subtleEncrypt key iv data) = none := by
  unfold subtleEncrypt subtleDecrypt
  simp only [bytesToNat_natToBytes, Nat.unpair_pair]
  rw [if_neg]
  intro hc
  exact hne.symm hc.1

/-- Claim C3 (key-clear invalidation). A payload encrypted before
`clearKey()` decrypts to `null` at every later point, whatever operations
(including the key generations forced by new getKey/encrypt calls, or
further clears) happened in between. -/
theorem clearKey_invalidates (st : CryptoState) (hwf : CryptoWf st) (iv : List Nat)
    (hiv : ∀ b ∈ iv, b < 256) (s : List Char) (ops : List CryptoOp) :
    (CryptoService.decrypt
      (runOps (CryptoService.clearKey (CryptoService.encrypt st iv s).2) ops)
      (CryptoService.encrypt st iv s).1).1 = none := by
  rw [encrypt_eq]
  dsimp only
  have hlt : (CryptoService.getKey st).1 < (CryptoService.getKey st).2.keyCtr :=
    getKey_lt st hwf
  have hlb : KeyLB (CryptoService.getKey st).2.keyCtr
      (CryptoService.clearKey (CryptoService.getKey st).2) := by
    refine ⟨?_, Nat.le_refl _⟩
    intro k hk
    unfold CryptoService.clearKey at hk
    simp at hk
  have hlb3 := keyLB_runOps _ ops _ hlb
  have hge := (keyLB_getKey _ _ hlb3).1
  rw [decrypt_eq_found _ _ iv _ (b64decode_b64encode iv hiv)
    (b64decode_b64encode _ (subtleEncrypt_lt _ _ _))]
  rw [subtleDecrypt_wrong_key _ _ (by omega)]

/-- Witness for `clearKey_invalidates`: concrete run with a fresh instance,
a forced new key generation after the clear, and a one-character payload. -/
theorem clearKey_invalidates_witness :
    CryptoWf CryptoState.init ∧
    (∀ b ∈ [0, 0, 0, 0, 0, 0, 0, 0, 0, 0, 0, 1], b < 256) ∧
    (CryptoService.decrypt
      (runOps (CryptoService.clearKey (CryptoService.encrypt CryptoState.init
        [0, 0, 0, 0, 0, 0, 0, 0, 0, 0, 0, 1] ['x']).2)
        [CryptoOp.encryptOp [0, 0, 0, 0, 0, 0, 0, 0, 0, 0, 0, 2] ['y']])
      (CryptoService.encrypt CryptoState.init
        [0, 0, 0, 0, 0, 0, 0, 0, 0, 0, 0, 1] ['x']).1).1 = none :=
  ⟨cryptoWf_init, by decide,
    clearKey_invalidates CryptoState.init cryptoWf_init _ (by decide) _ _⟩

/-! ### JSON values (model of the platform primitives JSON.stringify / JSON.parse)

`JSON.stringify`/`JSON.parse` are platform primitives, modelled as an
injective canonical string encoding of JavaScript values with an
executable inverse. `unserializable` stands for the values
`JSON.stringify` rejects by throwing (circular structures, BigInt). -/

inductive JsValue
  | null
  | bool (b : Bool)
  | num (i : Int)
  | str (s : List Char)
  | arr (xs : List JsValue)
  | obj (fields : List (List Char × JsValue))
  | unserializable

mutual

/-- Model of `JSON.stringify`; `none` models the thrown TypeError. -/
def stringifyVal : JsValue → Option (List Char)
  | .null => some ['n']
  | .bool true => some ['t']
  | .bool false => some ['f']
  | .num i => some ('i' :: (if i < 0 then '-' else '+') :: (List.replicate i.natAbs '1' ++ [';']))
  | .str s => some ('s' :: (List.replicate s.length '1' ++ ';' :: s))
  | .arr xs => (stringifyArr xs).map fun body =>
      'a' :: (List.replicate xs.length '1' ++ ';' :: body)
  | .obj fs => (stringifyObj fs).map fun body =>
      'o' :: (List.replicate fs.length '1' ++ ';' :: body)
  | .unserializable => none

def stringifyArr : List JsValue → Option (List Char)
  | [] => some []
  | x :: xs => do
      let e ← stringifyVal x
      let rest ← stringifyArr xs
      pure (',' :: (e ++ rest))

def stringifyObj : List (List Char × JsValue) → Option (List Char)
  | [] => some []
  | (k, v) :: fs => do
      let ev ← stringifyVal v
      let rest ← stringifyObj fs
      pure (',' :: (('s' :: (List.replicate k.length '1' ++ ';' :: k)) ++ ev ++ rest))

end

/-- Unary length field: a run of '1's terminated by ';'. -/
def parseNat : List Char → Option (Nat × List Char)
  | [] => none
  | c :: rest =>
      if c = ';' then some (0, rest)
      else if c = '1' then (parseNat rest).map fun p => (p.1 + 1, p.2)
      else none

/-- Signed integer body (sign, then unary magnitude). -/
def parseIntBody : List Char → Option (Int × List Char)
  | [] => none
  | sign :: rest1 =>
      if sign = '-' ∨ sign = '+' then
        (parseNat rest1).map fun p =>
          ((if sign = '-' then -(p.1 : Int) else (p.1 : Int)), p.2)
      else none

mutual

/-- Model of `JSON.parse` (recursive descent, fuel-bounded on nesting). -/
def parseVal : Nat → List Char → Option (JsValue × List Char)
  | 0, _ => none
  | _ + 1, [] => none
  | fuel + 1, c :: rest =>
    if c = 'n' then some (.null, rest)
    else if c = 't' then some (.bool true, rest)
    else if c = 'f' then some (.bool false, rest)
    else if c = 'i' then
      (parseIntBody rest).map fun p => (JsValue.num p.1, p.2)
    else if c = 's' then
      (parseNat rest).bind fun p =>
        if p.1 ≤ p.2.length then some (JsValue.str (p.2.take p.1), p.2.drop p.1) else none
    else if c = 'a' then
      (parseNat rest).bind fun p =>
        (parseItems fuel p.1 p.2).map fun q => (JsValue.arr q.1, q.2)
    else if c = 'o' then
      (parseNat rest).bind fun p =>
        (parseFields fuel p.1 p.2).map fun q => (JsValue.obj q.1, q.2)
    else none
termination_by fuel _ => (fuel, 0)

def parseItems : Nat → Nat → List Char → Option (List JsValue × List Char)
  | _, 0, l => some ([], l)
  | fuel, k + 1, ',' :: l1 =>
      (parseVal fuel l1).bind fun p =>
        (parseItems fuel k p.2).map fun q => (p.1 :: q.1, q.2)
  | _, _ + 1, _ => none
termination_by fuel k _ => (fuel, k + 1)

def parseFields : Nat → Nat → List Char → Option (List (List Char × JsValue) × List Char)
  | _, 0, l => some ([], l)
  | fuel, k + 1, ',' :: l1 =>
      (parseVal fuel l1).bind fun p =>
        match p.1 with
        | JsValue.str ks =>
            (parseVal fuel p.2).bind fun q =>
              (parseFields fuel k q.2).map fun r => ((ks, q.1) :: r.1, r.2)
        | _ => none
  | _, _ + 1, _ => none
termination_by fuel k _ => (fuel, k + 1)

end

theorem parseNat_replicate (n : Nat) (rest : List Char) :
    parseNat (List.replicate n '1' ++ ';' :: rest) = some (n, rest) := by
  induction n with
  | zero => simp [parseNat]
  | succ m ih => simp [List.replicate_succ, parseNat, ih]

theorem parse_stringify_main (L : Nat) :
    (∀ v e, stringifyVal v = some e → e.length ≤ L →
      ∀ fuel, e.length < fuel → ∀ rest, parseVal fuel (e ++ rest) = some (v, rest)) ∧
    (∀ xs e, stringifyArr xs = some e → e.length ≤ L →
      ∀ fuel, e.length ≤ fuel → ∀ rest,
        parseItems fuel xs.length (e ++ rest) = some (xs, rest)) ∧
    (∀ fs e, stringifyObj fs = some e → e.length ≤ L →
      ∀ fuel, e.length ≤ fuel → ∀ rest,
        parseFields fuel fs.length (e ++ rest) = some (fs, rest)) := by
  induction L using Nat.strong_induction_on with
  | _ L IH =>
  refine ⟨?_, ?_, ?_⟩
  · intro v e henc hL fuel hfuel rest
    obtain ⟨f, rfl⟩ : ∃ f, fuel = f + 1 := ⟨fuel - 1, by omega⟩
    cases v with
    | null =>
        simp [stringifyVal] at henc
        subst henc
        simp [parseVal]
    | bool b =>
        cases b <;> simp [stringifyVal] at henc <;> subst henc <;> simp [parseVal]
    | num i =>
        simp [stringifyVal] at henc
        subst henc
        by_cases hi : i < 0
        · simp only [hi, reduceIte, List.cons_append, List.append_assoc, List.nil_append]
          rw [parseVal]
          simp [parseIntBody, parseNat_replicate, abs_of_neg hi]
        · simp only [hi, reduceIte, List.cons_append, List.append_assoc, List.nil_append]
          rw [parseVal]
          simp [parseIntBody, parseNat_replicate, abs_of_nonneg (le_of_not_lt hi)]
    | str s =>
        simp [stringifyVal] at henc
        subst henc
        simp only [List.cons_append, List.append_assoc, List.cons_append]
        rw [parseVal]
        simp [parseNat_replicate, List.take_left, List.drop_left]
    | arr xs =>
        rw [stringifyVal] at henc
        cases hb : stringifyArr xs with
        | none => rw [hb] at henc; simp at henc
        | some body =>
            rw [hb] at henc
            simp at henc
            subst henc
            simp only [List.cons_append, List.append_assoc, List.cons_append]
            rw [parseVal]
            have hlen : body.length < L := by
              simp [List.length_append, List.length_replicate] at hL
              omega
            have hQ := (IH body.length hlen).2.1 xs body hb (Nat.le_refl _)
            simp [parseNat_replicate,
              hQ f (by
                simp [List.length_append, List.length_replicate] at hfuel
                omega)]
    | obj fs =>
        rw [stringifyVal] at henc
        cases hb : stringifyObj fs with
        | none => rw [hb] at henc; simp at henc
        | some body =>
            rw [hb] at henc
            simp at henc
            subst henc
            simp only [List.cons_append, List.append_assoc, List.cons_append]
            rw [parseVal]
            have hlen : body.length < L := by
              simp [List.length_append, List.length_replicate] at hL
              omega
            have hR := (IH body.length hlen).2.2 fs body hb (Nat.le_refl _)
            simp [parseNat_replicate,
              hR f (by
                simp [List.length_append, List.length_replicate] at hfuel
                omega)]
    | unserializable => simp [stringifyVal] at henc
  · intro xs e henc hL fuel hfuel rest
    cases xs with
    | nil =>
        simp [stringifyArr] at henc
        subst henc
        simp [parseItems]
    | cons x xs =>
        rw [stringifyArr] at henc
        cases hx : stringifyVal x with
        | none => rw [hx] at henc; simp at henc
        | some ex =>
            cases hxs : stringifyArr xs with
            | none => rw [hx, hxs] at henc; simp at henc
            | some exs =>
                rw [hx, hxs] at henc
                simp at henc
                subst henc
                simp only [List.cons_append, List.append_assoc]
                rw [List.length_cons] at hL hfuel ⊢
                rw [parseItems]
                have hex : ex.length < L := by
                  simp [List.length_append] at hL
                  omega
                have hP := (IH ex.length hex).1 x ex hx (Nat.le_refl _)
                rw [hP fuel (by simp [List.length_append] at hfuel; omega)]
                rw [Option.some_bind]
                have hexs : exs.length < L := by
                  simp [List.length_append] at hL
                  omega
                have hQ := (IH exs.length hexs).2.1 xs exs hxs (Nat.le_refl _)
                rw [hQ fuel (by simp [List.length_append] at hfuel; omega)]
                simp
  · intro fs e henc hL fuel hfuel rest
    cases fs with
    | nil =>
        simp [stringifyObj] at henc
        subst henc
        simp [parseFields]
    | cons kv fs =>
        obtain ⟨k, v⟩ := kv
        rw [stringifyObj] at henc
        cases hv : stringifyVal v with
        | none => rw [hv] at henc; simp at henc
        | some ev =>
            cases hfs : stringifyObj fs with
            | none => rw [hv, hfs] at henc; simp at henc
            | some efs =>
                rw [hv, hfs] at henc
                simp at henc
                subst henc
                simp only [List.cons_append, List.append_assoc]
                rw [List.length_cons] at hL hfuel ⊢
                rw [parseFields]
                have hkenc : stringifyVal (JsValue.str k) =
                    some ('s' :: (List.replicate k.length '1' ++ ';' :: k)) := by
                  simp [stringifyVal]
                have hklen : ('s' :: (List.replicate k.length '1' ++ ';' :: k)).length < L := by
                  simp [List.length_append] at hL ⊢
                  omega
                have hPk := (IH _ hklen).1 _ _ hkenc (Nat.le_refl _) fuel
                  (by simp [List.length_append] at hfuel ⊢; omega) (ev ++ (efs ++ rest))
                simp only [List.cons_append, List.append_assoc] at hPk
                rw [hPk]
                rw [Option.some_bind]
                have hevlen : ev.length < L := by
                  simp [List.length_append] at hL
                  omega
                have hPv := (IH ev.length hevlen).1 v ev hv (Nat.le_refl _)
                rw [hPv fuel (by simp [List.length_append] at hfuel; omega)]
                dsimp only
                rw [Option.some_bind]
                have hefs : efs.length < L := by
                  simp [List.length_append] at hL
                  omega
                have hR := (IH efs.length hefs).2.2 fs efs hfs (Nat.le_refl _)
                rw [hR fuel (by simp [List.length_append] at hfuel; omega)]
                simp

/-- Model of `JSON.stringify` at the top level. -/
def jsonStringify (v : JsValue) : Option (List Char) := stringifyVal v

/-- Model of `JSON.parse` at the top level; `none` models the thrown
SyntaxError, and the whole input must be consumed. -/
def jsonParse (l : List Char) : Option JsValue :=
  match parseVal (l.length + 1) l with
  | some (v, []) => some v
  | _ => none

theorem jsonParse_jsonStringify (v : JsValue) (e : List Char)
    (h : jsonStringify v = some e) : jsonParse e = some v := by
  have hP := (parse_stringify_main e.length).1 v e h (Nat.le_refl _)
    (e.length + 1) (Nat.lt_succ_self _) []
  rw [List.append_nil] at hP
  rw [jsonParse, hP]

/-! ### SecureStorage (src/packages/core/src/SecureStorage.ts) -/

/-- Truthiness of a JavaScript value (for the `!parsed.data || !parsed.iv`
check); a missing property (`none`) is falsy like `undefined`. -/
def jsTruthy : Option JsValue → Bool
  | none => false
  | some .null => false
  | some (.bool b) => b
  | some (.num i) => decide (i ≠ 0)
  | some (.str s) => decide (s ≠ [])
  | some (.arr _) => true
  | some (.obj _) => true
  | some .unserializable => true

/-- Property access `v[key]` on a parsed JSON value (last duplicate wins,
as in `JSON.parse`). -/
def jsField (v : JsValue) (key : List Char) : Option JsValue :=
  match v with
  | .obj fs => ((fs.filter fun kv => kv.1 == key).getLast?).map fun kv => kv.2
  | _ => none

/-- JavaScript ToString coercion, as applied by `atob` to a non-string
argument. Only the string case is ever reached on well-formed payloads. -/
def jsToStr : JsValue → List Char
  | .str s => s
  | .null => ("null" : String).data
  | .bool true => ("true" : String).data
  | .bool false => ("false" : String).data
  | .num i => if i < 0 then '-' :: Nat.toDigits 10 i.natAbs else Nat.toDigits 10 i.natAbs
  | .arr _ => []
  | .obj _ => ("[object Object]" : String).data
  | .unserializable => []

/-- The two failure kinds `set` can propagate. -/
inductive StoreErr
  | serializationError
  | backendError
deriving DecidableEq, Repr

/-- Storage backend (the `StorageAdapter` of types.ts): an association list
of entries plus a write-failure oracle modelling quota errors thrown by
`setItem`. `getItem`/`removeItem` do not throw. -/
structure Backend where
  items : List (List Char × List Char)
  failSet : List Char → List Char → Bool

def Backend.getItem (b : Backend) (k : List Char) : Option (List Char) :=
  b.items.lookup k

def Backend.setItem (b : Backend) (k v : List Char) : Option Backend :=
  if b.failSet k v then none else some { b with items := (k, v) :: b.items }

def Backend.removeItem (b : Backend) (k : List Char) : Backend :=
  { b with items := b.items.filter fun kv => ! (kv.1 == k) }

/-- Key of the `iv` property. -/
def ivKey : List Char := ['i', 'v']

/-- Key of the `data` property. -/
def dataKey : List Char := ['d', 'a', 't', 'a']

/-- The `EncryptedData` object as the JavaScript value passed to
`JSON.stringify` by `set`. -/
def payloadJs (e : EncryptedData) : JsValue :=
  JsValue.obj [(ivKey, JsValue.str e.iv), (dataKey, JsValue.str e.data)]

/-- The reconstructed payload handed to `decrypt` by `get`. -/
def storedPayload (parsed : JsValue) : EncryptedData :=
  { iv := jsToStr ((jsField parsed ivKey).getD JsValue.null),
    data := jsToStr ((jsField parsed dataKey).getD JsValue.null) }

/-- A SecureStorage instance: its key prefix (`prefix` in the source,
default `nis2_`). -/
structure SecureStorage where
  keyPrefix : List Char

namespace SecureStorage

/-- `set(key, value)`: serialize, encrypt, serialize the payload, write
under `prefix + key`; all failures in the try-block are rethrown. -/
def set (ss : SecureStorage) (cs : CryptoState) (b : Backend) (iv : List Nat)
    (k : List Char) (v : JsValue) : Except StoreErr Backend × CryptoState :=
  match jsonStringify v with
  | none => (Except.error StoreErr.serializationError, cs)
  | some jsonStr =>
      let (encrypted, cs') := CryptoService.encrypt cs iv jsonStr
      match jsonStringify (payloadJs encrypted) with
      | none => (Except.error StoreErr.serializationError, cs')
      | some stored =>
          match b.setItem (ss.keyPrefix ++ k) stored with
          | none => (Except.error StoreErr.backendError, cs')
          | some b' => (Except.ok b', cs')

/-- `get(key)`: read `prefix + key` and decrypt; every failure branch
returns `null` (the source wraps the body in try/catch). -/
def get (ss : SecureStorage) (cs : CryptoState) (b : Backend) (k : List Char) :
    Option JsValue × CryptoState :=
  match Backend.getItem b (ss.keyPrefix ++ k) with
  | none => (none, cs)
  | some item =>
      if item = [] then (none, cs)
      else
        match jsonParse item with
        | none => (none, cs)
        | some parsed =>
            if ¬ jsTruthy (jsField parsed dataKey) ∨ ¬ jsTruthy (jsField parsed ivKey) then
              (none, cs)
            else
              match CryptoService.decrypt cs (storedPayload parsed) with
              | (none, cs') => (none, cs')
              | (some decryptedJson, cs') =>
                  match jsonParse decryptedJson with
                  | none => (none, cs')
                  | some value => (some value, cs')

/-- `remove(key)`. -/
def remove (ss : SecureStorage) (b : Backend) (k : List Char) : Backend :=
  Backend.removeItem b (ss.keyPrefix ++ k)

/-- `has(key)`. -/
def has (ss : SecureStorage) (b : Backend) (k : List Char) : Bool :=
  (Backend.getItem b (ss.keyPrefix ++ k)).isSome

end SecureStorage

instance : Inhabited JsValue := ⟨JsValue.null⟩

theorem jsonStringify_payloadJs (e : EncryptedData) :
    ∃ body, jsonStringify (payloadJs e) = some ('o' :: body) := by
  refine ⟨?_, ?_⟩
  · exact ('1' :: '1' :: ';' ::
      (',' :: (('s' :: (List.replicate ivKey.length '1' ++ ';' :: ivKey)) ++
        (('s' :: (List.replicate e.iv.length '1' ++ ';' :: e.iv)) ++
          (',' :: (('s' :: (List.replicate dataKey.length '1' ++ ';' :: dataKey)) ++
            (('s' :: (List.replicate e.data.length '1' ++ ';' :: e.data)) ++ [])))))))
  · rfl

theorem jsonStringify_payloadJs_ne_nil (e : EncryptedData) (stored : List Char)
    (h : jsonStringify (payloadJs e) = some stored) : stored ≠ [] := by
  obtain ⟨body, hb⟩ := jsonStringify_payloadJs e
  rw [hb] at h
  intro he
  subst he
  simp at h

theorem jsField_payloadJs_iv (e : EncryptedData) :
    jsField (payloadJs e) ivKey = some (JsValue.str e.iv) := by
  simp [jsField, payloadJs, List.filter,
    show (dataKey == ivKey) = false from by rfl,
    show (ivKey == dataKey) = false from by rfl, List.getLast?]

theorem jsField_payloadJs_data (e : EncryptedData) :
    jsField (payloadJs e) dataKey = some (JsValue.str e.data) := by
  simp [jsField, payloadJs, List.filter,
    show (dataKey == ivKey) = false from by rfl,
    show (ivKey == dataKey) = false from by rfl, List.getLast?]

theorem storedPayload_payloadJs (e : EncryptedData) :
    storedPayload (payloadJs e) = e := by
  simp [storedPayload, jsField_payloadJs_iv, jsField_payloadJs_data, jsToStr]

/-- Claim C4 (encrypted store error contract). `get` returns `null` and
raises no error on an absent entry, an unparsable entry, an entry lacking
truthy iv/data fields, or a failed decryption; `set` propagates
serialization failures and backend-write failures, and succeeds (without
propagating anything) otherwise — these are the store's only
error-propagating paths. -/
theorem storage_error_contract (ss : SecureStorage) (cs : CryptoState) (b : Backend)
    (k : List Char) :
    (Backend.getItem b (ss.keyPrefix ++ k) = none →
      SecureStorage.get ss cs b k = (none, cs)) ∧
    (∀ item, Backend.getItem b (ss.keyPrefix ++ k) = some item → item ≠ [] →
      jsonParse item = none → SecureStorage.get ss cs b k = (none, cs)) ∧
    (∀ item parsed, Backend.getItem b (ss.keyPrefix ++ k) = some item → item ≠ [] →
      jsonParse item = some parsed →
      (¬ jsTruthy (jsField parsed dataKey) ∨ ¬ jsTruthy (jsField parsed ivKey)) →
      SecureStorage.get ss cs b k = (none, cs)) ∧
    (∀ item parsed, Backend.getItem b (ss.keyPrefix ++ k) = some item → item ≠ [] →
      jsonParse item = some parsed →
      jsTruthy (jsField parsed dataKey) = true → jsTruthy (jsField parsed ivKey) = true →
      (CryptoService.decrypt cs (storedPayload parsed)).1 = none →
      (SecureStorage.get ss cs b k).1 = none) ∧
    (∀ iv v, jsonStringify v = none →
      SecureStorage.set ss cs b iv k v = (Except.error StoreErr.serializationError, cs)) ∧
    (∀ iv v jsonStr, jsonStringify v = some jsonStr →
      ∃ stored,
        jsonStringify (payloadJs (CryptoService.encrypt cs iv jsonStr).1) = some stored ∧
        (b.failSet (ss.keyPrefix ++ k) stored = true →
          SecureStorage.set ss cs b iv k v =
            (Except.error StoreErr.backendError, (CryptoService.encrypt cs iv jsonStr).2)) ∧
        (b.failSet (ss.keyPrefix ++ k) stored = false →
          SecureStorage.set ss cs b iv k v =
            (Except.ok { b with items := (ss.keyPrefix ++ k, stored) :: b.items },
              (CryptoService.encrypt cs iv jsonStr).2))) := by
  refine ⟨?_, ?_, ?_, ?_, ?_, ?_⟩
  · intro h
    rw [SecureStorage.get, h]
  · intro item hi hne hp
    rw [SecureStorage.get, hi]
    dsimp only
    rw [if_neg hne, hp]
  · intro item parsed hi hne hp hfalsy
    rw [SecureStorage.get, hi]
    dsimp only
    rw [if_neg hne, hp]
    dsimp only
    rw [if_pos]
    simpa using hfalsy
  · intro item parsed hi hne hp hd hiv hdec
    rw [SecureStorage.get, hi]
    dsimp only
    rw [if_neg hne, hp]
    dsimp only
    rw [if_neg (by simp [hd, hiv])]
    cases hdc : CryptoService.decrypt cs (storedPayload parsed) with
    | mk r cs' =>
        rw [hdc] at hdec
        simp at hdec
        subst hdec
        simp
  · intro iv v hv
    rw [SecureStorage.set, hv]
  · intro iv v jsonStr hv
    obtain ⟨body, hb⟩ := jsonStringify_payloadJs (CryptoService.encrypt cs iv jsonStr).1
    refine ⟨'o' :: body, hb, ?_, ?_⟩
    · intro hfail
      rw [SecureStorage.set, hv]
      simp only
      rw [hb]
      simp only [Backend.setItem]
      rw [if_pos hfail]
    · intro hok
      rw [SecureStorage.set, hv]
      simp only
      rw [hb]
      simp only [Backend.setItem]
      rw [if_neg (by simp [hok])]

/-- Witness for `storage_error_contract`: concrete instances of the
absent-entry, unparsable-entry, failed-decryption, serialization-error and
backend-error branches. -/
theorem storage_error_contract_witness :
    (SecureStorage.get ⟨['p']⟩ CryptoState.init ⟨[], fun _ _ => false⟩ ['k'] =
      (none, CryptoState.init)) ∧
    (SecureStorage.get ⟨['p']⟩ CryptoState.init ⟨[(['p', 'k'], ['x'])], fun _ _ => false⟩ ['k'] =
      (none, CryptoState.init)) ∧
    ((SecureStorage.get ⟨['p']⟩ CryptoState.init
      ⟨[(['p', 'k'], (jsonStringify (payloadJs ⟨['!'], ['!']⟩)).getD [])],
        fun _ _ => false⟩ ['k']).1 = none) ∧
    (SecureStorage.set ⟨['p']⟩ CryptoState.init ⟨[], fun _ _ => false⟩ [] ['k']
      JsValue.unserializable = (Except.error StoreErr.serializationError, CryptoState.init)) ∧
    (SecureStorage.set ⟨['p']⟩ CryptoState.init ⟨[], fun _ _ => true⟩ [] ['k'] JsValue.null =
      (Except.error StoreErr.backendError,
        (CryptoService.encrypt CryptoState.init [] ['n']).2)) := by
  refine ⟨?_, ?_, ?_, ?_, ?_⟩
  · exact (storage_error_contract ⟨['p']⟩ CryptoState.init ⟨[], fun _ _ => false⟩ ['k']).1 rfl
  · refine (storage_error_contract ⟨['p']⟩ CryptoState.init
      ⟨[(['p', 'k'], ['x'])], fun _ _ => false⟩ ['k']).2.1 ['x'] rfl (by decide) ?_
    simp [jsonParse, parseVal]
  · refine (storage_error_contract ⟨['p']⟩ CryptoState.init
      ⟨[(['p', 'k'], (jsonStringify (payloadJs ⟨['!'], ['!']⟩)).getD [])],
        fun _ _ => false⟩ ['k']).2.2.2.1
      ((jsonStringify (payloadJs ⟨['!'], ['!']⟩)).getD []) (payloadJs ⟨['!'], ['!']⟩)
      rfl (by decide) ?_ (by rfl) (by rfl) (by rfl)
    exact jsonParse_jsonStringify _ _ rfl
  · exact (storage_error_contract ⟨['p']⟩ CryptoState.init ⟨[], fun _ _ => false⟩
      ['k']).2.2.2.2.1 [] JsValue.unserializable rfl
  · obtain ⟨stored, hs, hfail, _⟩ := (storage_error_contract ⟨['p']⟩ CryptoState.init
      ⟨[], fun _ _ => true⟩ ['k']).2.2.2.2.2 [] JsValue.null ['n'] rfl
    exact hfail rfl

/-- Claim C5 (store round-trip). After a successful `set(k, v)` (so for any
value `JSON.stringify` accepts: strings, numbers, arrays, objects), `get(k)`
on the resulting state — same cipher service, no clearKey in between —
returns a value equal to `v`. -/
theorem storage_roundtrip (ss : SecureStorage) (cs : CryptoState) (b : Backend)
    (iv : List Nat) (k : List Char) (v : JsValue) (b2 : Backend) (cs2 : CryptoState)
    (hlen : iv.length = 12) (hiv : ∀ x ∈ iv, x < 256)
    (hset : SecureStorage.set ss cs b iv k v = (Except.ok b2, cs2)) :
    (SecureStorage.get ss cs2 b2 k).1 = some v := by
  rw [SecureStorage.set] at hset
  cases hv : jsonStringify v with
  | none => rw [hv] at hset; simp at hset
  | some jsonStr =>
      rw [hv] at hset
      dsimp only at hset
      obtain ⟨body, hb⟩ := jsonStringify_payloadJs (CryptoService.encrypt cs iv jsonStr).1
      rw [hb] at hset
      simp only [Backend.setItem] at hset
      by_cases hfs : b.failSet (ss.keyPrefix ++ k) ('o' :: body) = true
      · rw [if_pos hfs] at hset
        simp at hset
      · rw [if_neg hfs] at hset
        have hb2 : b2 = { b with items := (ss.keyPrefix ++ k, 'o' :: body) :: b.items } := by
          have h1 := congrArg Prod.fst hset
          simpa using h1.symm
        have hcs2 : cs2 = (CryptoService.encrypt cs iv jsonStr).2 := by
          have h1 := congrArg Prod.snd hset
          simpa using h1.symm
        subst hb2
        subst hcs2
        rw [SecureStorage.get]
        have hgi : Backend.getItem
            { b with items := (ss.keyPrefix ++ k, 'o' :: body) :: b.items }
            (ss.keyPrefix ++ k) = some ('o' :: body) := by
          simp [Backend.getItem, List.lookup]
        rw [hgi]
        dsimp only
        rw [if_neg (by simp)]
        rw [jsonParse_jsonStringify _ _ hb]
        dsimp only
        have hivne : iv ≠ [] := by
          intro h
          subst h
          simp at hlen
        have hdata_ne : (CryptoService.encrypt cs iv jsonStr).1.data ≠ [] := by
          rw [encrypt_eq]
          exact b64encode_ne_nil _ (subtleEncrypt_ne_nil _ _ _ hivne)
        have hiv_ne : (CryptoService.encrypt cs iv jsonStr).1.iv ≠ [] := by
          rw [encrypt_eq]
          exact b64encode_ne_nil _ hivne
        rw [if_neg (by
          simp [jsField_payloadJs_data, jsField_payloadJs_iv, jsTruthy, hdata_ne, hiv_ne])]
        rw [storedPayload_payloadJs]
        have hdec := decrypt_encrypt cs iv hiv jsonStr
        cases hdc : CryptoService.decrypt (CryptoService.encrypt cs iv jsonStr).2
            (CryptoService.encrypt cs iv jsonStr).1 with
        | mk r cs' =>
            rw [hdc] at hdec
            simp at hdec
            subst hdec
            dsimp only
            rw [jsonParse_jsonStringify v jsonStr hv]

/-- Witness for `storage_roundtrip`: a concrete number value stored and
retrieved on a fresh instance with an all-zero 12-byte iv and an
in-memory backend. -/
theorem storage_roundtrip_witness :
    ([0, 0, 0, 0, 0, 0, 0, 0, 0, 0, 0, 0] : List Nat).length = 12 ∧
    (∀ x ∈ ([0, 0, 0, 0, 0, 0, 0, 0, 0, 0, 0, 0] : List Nat), x < 256) ∧
    ((SecureStorage.get ⟨['p']⟩
      (SecureStorage.set ⟨['p']⟩ CryptoState.init ⟨[], fun _ _ => false⟩
        [0, 0, 0, 0, 0, 0, 0, 0, 0, 0, 0, 0] ['k'] (JsValue.num 5)).2
      ((fun r => match r with
        | Except.ok bb => bb
        | Except.error _ => Backend.mk [] fun _ _ => false)
        (SecureStorage.set ⟨['p']⟩ CryptoState.init ⟨[], fun _ _ => false⟩
          [0, 0, 0, 0, 0, 0, 0, 0, 0, 0, 0, 0] ['k'] (JsValue.num 5)).1)
      ['k']).1 = some (JsValue.num 5)) := by
  refine ⟨by decide, by decide, ?_⟩
  exact storage_roundtrip ⟨['p']⟩ CryptoState.init ⟨[], fun _ _ => false⟩
    [0, 0, 0, 0, 0, 0, 0, 0, 0, 0, 0, 0] ['k'] (JsValue.num 5) _ _
    (by decide) (by decide) (by rfl)

/-! ### SessionGuardian (src/packages/core/src/SessionGuardian.ts)

Time is an explicit `Nat` of milliseconds (`Date.now()` is passed as the
`now` argument of each handler). `setTimeout`/`clearTimeout` are modelled
by an explicit list of pending timers with fresh identifiers; the single
cancellable handle `this.timer` is the `timer` field. Events are recorded
in an append-only log. -/

/-- Events emitted by the guardian (the payloads carried by `emit`). -/
inductive GEvent
  | idle (idleSince : Nat) (timeoutMinutes : Nat)
  | active
  | visibilityChange (hidden : Bool)
  | warning (secondsRemaining : Nat)
deriving DecidableEq, Repr

/-- Which callback a pending `setTimeout` runs. -/
inductive TimerKind
  | warningT
  | timeoutT
deriving DecidableEq, Repr

/-- One pending timer: its handle, absolute fire time, and callback kind. -/
structure PendingTimer where
  id : Nat
  fireAt : Nat
  kind : TimerKind
deriving DecidableEq, Repr

/-- The config subset the guardian keeps (after defaulting). -/
structure GuardianConfig where
  idleTimeoutMinutes : Nat
  activityThrottleMs : Nat
deriving DecidableEq, Repr

/-- The defaults applied by the constructor. -/
def defaultGuardianConfig : GuardianConfig :=
  { idleTimeoutMinutes := 15, activityThrottleMs := 1000 }

/-- Guardian instance state plus its timer environment and event log. -/
structure GuardianState where
  config : GuardianConfig
  lastActivity : Nat
  isIdle : Bool
  isRunning : Bool
  timer : Option Nat
  pending : List PendingTimer
  nextTimerId : Nat
  events : List GEvent
deriving DecidableEq, Repr

/-- `new SessionGuardian(config)` at time `now` (`lastActivity = Date.now()`). -/
def initialGuardian (cfg : GuardianConfig) (now : Nat) : GuardianState :=
  { config := cfg, lastActivity := now, isIdle := false, isRunning := false,
    timer := none, pending := [], nextTimerId := 0, events := [] }

namespace SessionGuardian

/-- `timeoutMs` as computed in the source: `idleTimeoutMinutes * 60 * 1000`. -/
def timeoutMs (s : GuardianState) : Nat :=
  s.config.idleTimeoutMinutes * 60 * 1000

/-- `emit`: synchronous dispatch, recorded in the log. -/
def emit (e : GEvent) (s : GuardianState) : GuardianState :=
  { s with events := s.events ++ [e] }

/-- `clearTimeout(handle)`. -/
def clearTimeoutById (h : Nat) (s : GuardianState) : GuardianState :=
  { s with pending := s.pending.filter fun p => ! (p.id == h) }

/-- `setTimeout(cb, delay)` at time `now`: returns the fresh handle. -/
def setTimeoutAt (kind : TimerKind) (fireAt : Nat) (s : GuardianState) :
    GuardianState × Nat :=
  ({ s with
      pending := s.pending ++ [⟨s.nextTimerId, fireAt, kind⟩]
      nextTimerId := s.nextTimerId + 1 },
    s.nextTimerId)

/-- `resetTimer()` at time `now`: cancels the pending timeout handle,
schedules the warning delay when `timeoutMs - 60000` is positive, and
schedules (and stores the handle of) the timeout delay. -/
def resetTimer (now : Nat) (s : GuardianState) : GuardianState :=
  let s1 := match s.timer with
    | some h => clearTimeoutById h s
    | none => s
  let tm := timeoutMs s
  let warningMs := tm - 60000
  let s2 := if warningMs > 0 then (setTimeoutAt TimerKind.warningT (now + warningMs) s1).1
    else s1
  let s3 := setTimeoutAt TimerKind.timeoutT (now + tm) s2
  { s3.1 with timer := some s3.2 }

/-- `triggerIdle()`: idempotent idle transition. -/
def triggerIdle (s : GuardianState) : GuardianState :=
  if s.isIdle then s
  else emit (GEvent.idle s.lastActivity s.config.idleTimeoutMinutes)
    { s with isIdle := true }

/-- The idle→active part shared by `reset` and `handleActivity`. -/
def goActive (s : GuardianState) : GuardianState :=
  if s.isIdle then emit GEvent.active { s with isIdle := false } else s

/-- `handleActivity()` at time `now` (throttled). -/
def handleActivity (now : Nat) (s : GuardianState) : GuardianState :=
  if now - s.lastActivity < s.config.activityThrottleMs then s
  else resetTimer now (goActive { s with lastActivity := now })

/-- `handleVisibilityChange()` at time `now`. -/
def handleVisibilityChange (now : Nat) (hidden : Bool) (s : GuardianState) :
    GuardianState :=
  let s1 := emit (GEvent.visibilityChange hidden) s
  if hidden then s1
  else if now - s1.lastActivity ≥ timeoutMs s1 ∧ s1.isIdle = false then triggerIdle s1
  else handleActivity now s1

/-- `start()` at time `now`: idempotent; arms the timer. (Registering the
DOM listeners is an environment effect with no state of its own here.) -/
def start (now : Nat) (s : GuardianState) : GuardianState :=
  if s.isRunning then s
  else resetTimer now { s with isRunning := true }

/-- `stop()`: idempotent; cancels the pending timeout handle and removes
listeners, leaving `isIdle`/`lastActivity` untouched. -/
def stop (s : GuardianState) : GuardianState :=
  if s.isRunning = false then s
  else
    let s1 := { s with isRunning := false }
    match s1.timer with
    | some h => { clearTimeoutById h s1 with timer := none }
    | none => s1

/-- `reset()` at time `now`. -/
def reset (now : Nat) (s : GuardianState) : GuardianState :=
  resetTimer now (goActive { s with lastActivity := now })

/-- `getIsIdle()`. -/
def getIsIdle (s : GuardianState) : Bool := s.isIdle

/-- `getTimeRemaining()` at time `now`: `max(0, timeout - elapsed)` (the
truncated subtraction on `Nat` realizes the `Math.max(0, ·)`). -/
def getTimeRemaining (now : Nat) (s : GuardianState) : Nat :=
  timeoutMs s - (now - s.lastActivity)

/-- The callback body of a pending timer: the timeout delay runs
`triggerIdle()`; the warning delay emits `warning {secondsRemaining: 60}`
only while running and not idle. -/
def runTimerCallback (kind : TimerKind) (s : GuardianState) : GuardianState :=
  match kind with
  | TimerKind.timeoutT => triggerIdle s
  | TimerKind.warningT =>
      if s.isIdle = false ∧ s.isRunning = true then emit (GEvent.warning 60) s else s

/-- Firing one pending timer: the environment removes it from the queue and
runs its callback. -/
def fireTimer (s : GuardianState) (p : PendingTimer) : GuardianState :=
  runTimerCallback p.kind { s with pending := s.pending.filter fun q => ! (q.id == p.id) }

/-- Earliest due timer at time `t` (fire order: time, then insertion). -/
def minDue (t : Nat) : List PendingTimer → Option PendingTimer
  | [] => none
  | p :: rest =>
      match minDue t rest with
      | none => if p.fireAt ≤ t then some p else none
      | some q =>
          if p.fireAt ≤ t ∧ (p.fireAt < q.fireAt ∨ (p.fireAt = q.fireAt ∧ p.id < q.id)) then
            some p
          else some q

theorem minDue_mem (t : Nat) (l : List PendingTimer) (p : PendingTimer)
    (h : minDue t l = some p) : p ∈ l := by
  induction l with
  | nil => simp [minDue] at h
  | cons q rest ih =>
      rw [minDue] at h
      cases hm : minDue t rest with
      | none =>
          rw [hm] at h
          dsimp only at h
          split at h
          · injection h with h2
            subst h2
            exact List.mem_cons_self _ _
          · exact absurd h (by simp)
      | some r =>
          rw [hm] at h
          dsimp only at h
          split at h
          · injection h with h2
            subst h2
            exact List.mem_cons_self _ _
          · injection h with h2
            subst h2
            exact List.mem_cons_of_mem q (ih hm)

theorem runTimerCallback_pending (kind : TimerKind) (s : GuardianState) :
    (runTimerCallback kind s).pending = s.pending := by
  cases kind with
  | timeoutT =>
      rw [runTimerCallback, triggerIdle]
      split
      · rfl
      · rfl
  | warningT =>
      rw [runTimerCallback]
      split
      · rfl
      · rfl

/-- Advancing the clock to time `t`: fire every due timer, in order. -/
def advanceTo (t : Nat) (s : GuardianState) : GuardianState :=
  match hm : minDue t s.pending with
  | none => s
  | some p => advanceTo t (fireTimer s p)
termination_by s.pending.length
decreasing_by
  rw [fireTimer, runTimerCallback_pending]
  have hmem := minDue_mem t s.pending p hm
  have : (s.pending.filter fun q => ! (q.id == p.id)).length < s.pending.length := by
    rw [List.length_filter_lt_length_iff_exists]
    exact ⟨p, hmem, by simp⟩
  simpa using this

theorem resetTimer_fields (now : Nat) (s : GuardianState) :
    (resetTimer now s).lastActivity = s.lastActivity ∧
    (resetTimer now s).isIdle = s.isIdle ∧
    (resetTimer now s).isRunning = s.isRunning ∧
    (resetTimer now s).events = s.events ∧
    (resetTimer now s).config = s.config := by
  rw [resetTimer]
  cases hst : s.timer with
  | none => split <;> exact ⟨rfl, rfl, rfl, rfl, rfl⟩
  | some hh => split <;> exact ⟨rfl, rfl, rfl, rfl, rfl⟩

theorem goActive_fields (s : GuardianState) :
    (goActive s).lastActivity = s.lastActivity ∧
    (goActive s).isIdle = false ∨ goActive s = s ∧ s.isIdle = false := by
  unfold goActive
  split
  · exact Or.inl ⟨rfl, rfl⟩
  · rename_i h
    simp at h
    exact Or.inr ⟨rfl, h⟩

theorem timeoutMs_config (s s2 : GuardianState) (h : s2.config = s.config) :
    timeoutMs s2 = timeoutMs s := by
  unfold timeoutMs
  rw [h]

theorem resetTimer_timer (now : Nat) (s : GuardianState) :
    ∃ h, (resetTimer now s).timer = some h ∧
      (⟨h, now + timeoutMs s, TimerKind.timeoutT⟩ : PendingTimer) ∈
        (resetTimer now s).pending := by
  rw [resetTimer]
  cases hst : s.timer with
  | none => split <;> exact ⟨_, rfl, by simp [setTimeoutAt]⟩
  | some hh => split <;> exact ⟨_, rfl, by simp [setTimeoutAt]⟩

theorem handleActivity_pass_lastActivity (now : Nat) (s : GuardianState)
    (h : ¬ now - s.lastActivity < s.config.activityThrottleMs) :
    (handleActivity now s).lastActivity = now := by
  rw [handleActivity, if_neg h]
  rw [(resetTimer_fields now (goActive { s with lastActivity := now })).1]
  unfold goActive
  split <;> simp [emit]

/-- Claim C7 (activity throttle). A signal less than `activityThrottleMs`
(default 1000) after `lastActivity` is ignored entirely; one at or past the
throttle updates `lastActivity`, transitions idle→active (emitting `active`
exactly when the monitor was idle), and re-arms the timeout timer. -/
theorem activity_throttle (now : Nat) (s : GuardianState) :
    defaultGuardianConfig.activityThrottleMs = 1000 ∧
    (now - s.lastActivity < s.config.activityThrottleMs →
      handleActivity now s = s) ∧
    (¬ now - s.lastActivity < s.config.activityThrottleMs →
      (handleActivity now s).lastActivity = now ∧
      (handleActivity now s).isIdle = false ∧
      ((handleActivity now s).events =
        if s.isIdle then s.events ++ [GEvent.active] else s.events) ∧
      ∃ h, (handleActivity now s).timer = some h ∧
        (⟨h, now + timeoutMs s, TimerKind.timeoutT⟩ : PendingTimer) ∈
          (handleActivity now s).pending) := by
  refine ⟨rfl, ?_, ?_⟩
  · intro h
    rw [handleActivity, if_pos h]
  · intro h
    rw [handleActivity, if_neg h]
    set sa := goActive { s with lastActivity := now } with hsa
    have hfields := resetTimer_fields now sa
    have hcfg : sa.config = s.config := by
      rw [hsa]
      unfold goActive
      split <;> simp [emit]
    have hla : sa.lastActivity = now := by
      rw [hsa]
      unfold goActive
      split <;> simp [emit]
    have hii : sa.isIdle = false := by
      rw [hsa]
      unfold goActive
      split
      · simp [emit]
      · rename_i hni
        simpa using hni
    have hev : sa.events = if s.isIdle then s.events ++ [GEvent.active] else s.events := by
      rw [hsa]
      unfold goActive
      split
      · rename_i hid
        simp [emit, hid]
      · rename_i hni
        simp at hni
        simp [hni]
    refine ⟨?_, ?_, ?_, ?_⟩
    · rw [hfields.1, hla]
    · rw [hfields.2.1, hii]
    · rw [hfields.2.2.2.1, hev]
    · obtain ⟨hh, h1, h2⟩ := resetTimer_timer now sa
      rw [timeoutMs_config s sa hcfg] at h2
      exact ⟨hh, h1, h2⟩

/-- Witness for `activity_throttle`: at a concrete state 500ms after the
last activity with the default throttle the signal is dropped; at 1500ms
it updates the state and re-arms. -/
theorem activity_throttle_witness :
    (500 - 0 < (initialGuardian defaultGuardianConfig 0).config.activityThrottleMs) ∧
    handleActivity 500 (initialGuardian defaultGuardianConfig 0) =
      initialGuardian defaultGuardianConfig 0 ∧
    (¬ 1500 - 0 < (initialGuardian defaultGuardianConfig 0).config.activityThrottleMs) ∧
    (handleActivity 1500 (initialGuardian defaultGuardianConfig 0)).lastActivity = 1500 := by
  refine ⟨by decide, ?_, by decide, ?_⟩
  · exact (activity_throttle 500 (initialGuardian defaultGuardianConfig 0)).2.1 (by decide)
  · exact ((activity_throttle 1500 (initialGuardian defaultGuardianConfig 0)).2.2
      (by decide)).1

/-- Claim C2, amended: when the document becomes visible again, if elapsed
time since last activity is at least the timeout and the monitor is not yet
idle, it immediately triggers idle; otherwise the signal is forwarded to the
regular, throttled activity handler — so it is ignored (beyond the
visibility-change event) whenever less than `activityThrottleMs` has elapsed
since the last activity, and updates `lastActivity`/re-arms the timer only
when the throttle passes. -/
theorem visibility_change_semantics (now : Nat) (s : GuardianState) :
    (now - s.lastActivity ≥ timeoutMs s → s.isIdle = false →
      handleVisibilityChange now false s =
        triggerIdle (emit (GEvent.visibilityChange false) s)) ∧
    (¬ (now - s.lastActivity ≥ timeoutMs s ∧ s.isIdle = false) →
      handleVisibilityChange now false s =
        handleActivity now (emit (GEvent.visibilityChange false) s)) ∧
    (¬ (now - s.lastActivity ≥ timeoutMs s ∧ s.isIdle = false) →
      now - s.lastActivity < s.config.activityThrottleMs →
      handleVisibilityChange now false s = emit (GEvent.visibilityChange false) s) := by
  refine ⟨?_, ?_, ?_⟩
  · intro hel hni
    rw [handleVisibilityChange]
    rw [if_neg (by simp)]
    rw [if_pos]
    constructor
    · simpa [emit] using hel
    · simp [emit, hni]
  · intro hcond
    rw [handleVisibilityChange]
    rw [if_neg (by simp)]
    rw [if_neg]
    intro hc
    exact hcond ⟨by simpa [emit] using hc.1, by simpa [emit] using hc.2⟩
  · intro hcond hth
    rw [handleVisibilityChange]
    rw [if_neg (by simp)]
    rw [if_neg (fun hc => hcond ⟨by simpa [emit] using hc.1, by simpa [emit] using hc.2⟩)]
    rw [handleActivity, if_pos]
    simpa [emit] using hth

/-- Counterexample to claim C2 as stated: with the default 1000ms throttle,
a 60000ms timeout, last activity at 0 and the tab becoming visible at
t = 500 (elapsed below the timeout), the claim predicts an activity signal
that bypasses the throttle — `lastActivity` updated to 500 and the timer
re-armed. The code instead routes through the throttled handler, which
drops the signal: `lastActivity` stays 0, no new timer is scheduled, and
only the visibility-change event is emitted. -/
theorem visibility_throttle_counterexample :
    (SessionGuardian.handleVisibilityChange 500 false
      { config := ⟨1, 1000⟩, lastActivity := 0, isIdle := false, isRunning := true,
        timer := some 0, pending := [⟨0, 60000, TimerKind.timeoutT⟩], nextTimerId := 1,
        events := [] }).lastActivity = 0 ∧
    (SessionGuardian.handleVisibilityChange 500 false
      { config := ⟨1, 1000⟩, lastActivity := 0, isIdle := false, isRunning := true,
        timer := some 0, pending := [⟨0, 60000, TimerKind.timeoutT⟩], nextTimerId := 1,
        events := [] }).pending = [⟨0, 60000, TimerKind.timeoutT⟩] ∧
    (SessionGuardian.handleVisibilityChange 500 false
      { config := ⟨1, 1000⟩, lastActivity := 0, isIdle := false, isRunning := true,
        timer := some 0, pending := [⟨0, 60000, TimerKind.timeoutT⟩], nextTimerId := 1,
        events := [] }).nextTimerId = 1 ∧
    ¬ ((SessionGuardian.handleVisibilityChange 500 false
      { config := ⟨1, 1000⟩, lastActivity := 0, isIdle := false, isRunning := true,
        timer := some 0, pending := [⟨0, 60000, TimerKind.timeoutT⟩], nextTimerId := 1,
        events := [] }).lastActivity = 500) := by
  refine ⟨?_, ?_, ?_, ?_⟩ <;> decide

/-- Witness for `visibility_change_semantics`: the throttled branch at the
counterexample state, and the catch-up idle branch at an expired state. -/
theorem visibility_change_semantics_witness :
    (SessionGuardian.handleVisibilityChange 500 false
      { config := ⟨1, 1000⟩, lastActivity := 0, isIdle := false, isRunning := true,
        timer := some 0, pending := [⟨0, 60000, TimerKind.timeoutT⟩], nextTimerId := 1,
        events := [] } =
      emit (GEvent.visibilityChange false)
        { config := ⟨1, 1000⟩, lastActivity := 0, isIdle := false, isRunning := true,
          timer := some 0, pending := [⟨0, 60000, TimerKind.timeoutT⟩], nextTimerId := 1,
          events := [] }) ∧
    (SessionGuardian.handleVisibilityChange 70000 false
      { config := ⟨1, 1000⟩, lastActivity := 0, isIdle := false, isRunning := true,
        timer := some 0, pending := [⟨0, 60000, TimerKind.timeoutT⟩], nextTimerId := 1,
        events := [] } =
      triggerIdle (emit (GEvent.visibilityChange false)
        { config := ⟨1, 1000⟩, lastActivity := 0, isIdle := false, isRunning := true,
          timer := some 0, pending := [⟨0, 60000, TimerKind.timeoutT⟩], nextTimerId := 1,
          events := [] })) := by
  constructor
  · exact (visibility_change_semantics 500
      { config := ⟨1, 1000⟩, lastActivity := 0, isIdle := false, isRunning := true,
        timer := some 0, pending := [⟨0, 60000, TimerKind.timeoutT⟩], nextTimerId := 1,
        events := [] }).2.2 (by decide) (by decide)
  · exact (visibility_change_semantics 70000
      { config := ⟨1, 1000⟩, lastActivity := 0, isIdle := false, isRunning := true,
        timer := some 0, pending := [⟨0, 60000, TimerKind.timeoutT⟩], nextTimerId := 1,
        events := [] }).1 (by decide) (by decide)

/-- Claim C10 (implicit frame effect of start). `start()` never updates
`lastActivity` — only construction, `reset()`, and a throttle-passing
activity signal set it; consequently, starting a monitor whose last
activity lies at least `timeoutMs` in the past yields
`getTimeRemaining() = 0` while the timeout delay is nevertheless armed to
fire a full `timeoutMs` after the `start()` call. -/
theorem start_frame_effect (now t0 : Nat) (cfg : GuardianConfig) (s : GuardianState) :
    (start now s).lastActivity = s.lastActivity ∧
    (initialGuardian cfg t0).lastActivity = t0 ∧
    (reset now s).lastActivity = now ∧
    (¬ now - s.lastActivity < s.config.activityThrottleMs →
      (handleActivity now s).lastActivity = now) ∧
    (s.isRunning = false → s.lastActivity + timeoutMs s ≤ now →
      getTimeRemaining now (start now s) = 0 ∧
      ∃ h, (start now s).timer = some h ∧
        (⟨h, now + timeoutMs s, TimerKind.timeoutT⟩ : PendingTimer) ∈
          (start now s).pending) := by
  have hstart : ∀ (hnr : s.isRunning = false),
      start now s = resetTimer now { s with isRunning := true } := by
    intro hnr
    rw [start, if_neg (by simp [hnr])]
  refine ⟨?_, rfl, ?_, ?_, ?_⟩
  · rw [start]
    split
    · rfl
    · exact (resetTimer_fields now { s with isRunning := true }).1
  · have hf := (resetTimer_fields now (goActive { s with lastActivity := now })).1
    rw [reset, hf]
    unfold goActive
    split <;> simp [emit]
  · intro h
    exact handleActivity_pass_lastActivity now s h
  · intro hnr hel
    rw [hstart hnr]
    have hf := resetTimer_fields now { s with isRunning := true }
    constructor
    · rw [getTimeRemaining, timeoutMs_config s _ hf.2.2.2.2, hf.1]
      simp only
      omega
    · obtain ⟨hh, h1, h2⟩ := resetTimer_timer now { s with isRunning := true }
      rw [timeoutMs_config s _ (show ({ s with isRunning := true } : GuardianState).config
        = s.config from rfl)] at h2
      exact ⟨hh, h1, h2⟩

/-- Witness for `start_frame_effect`: a monitor constructed at time 0 with
a one-minute timeout and started only at time 100000 has no remaining time
yet arms its timeout delay 60000ms after the start call. -/
theorem start_frame_effect_witness :
    ((initialGuardian ⟨1, 1000⟩ 0).isRunning = false) ∧
    ((initialGuardian ⟨1, 1000⟩ 0).lastActivity +
      timeoutMs (initialGuardian ⟨1, 1000⟩ 0) ≤ 100000) ∧
    (start 100000 (initialGuardian ⟨1, 1000⟩ 0)).lastActivity = 0 ∧
    getTimeRemaining 100000 (start 100000 (initialGuardian ⟨1, 1000⟩ 0)) = 0 := by
  refine ⟨by decide, by decide, ?_, ?_⟩
  · exact (start_frame_effect 100000 0 ⟨1, 1000⟩ (initialGuardian ⟨1, 1000⟩ 0)).1
  · exact ((start_frame_effect 100000 0 ⟨1, 1000⟩ (initialGuardian ⟨1, 1000⟩ 0)).2.2.2.2
      (by decide) (by decide)).1

theorem resetTimer_pending (now : Nat) (s : GuardianState) :
    (resetTimer now s).pending =
      (match s.timer with
        | some h => s.pending.filter fun p => ! (p.id == h)
        | none => s.pending) ++
      (if timeoutMs s - 60000 > 0 then
        [⟨s.nextTimerId, now + (timeoutMs s - 60000), TimerKind.warningT⟩,
         ⟨s.nextTimerId + 1, now + timeoutMs s, TimerKind.timeoutT⟩]
       else [⟨s.nextTimerId, now + timeoutMs s, TimerKind.timeoutT⟩]) := by
  rw [resetTimer]
  cases hst : s.timer with
  | none => split <;> rename_i hw <;> simp [setTimeoutAt, clearTimeoutById, hw]
  | some hh => split <;> rename_i hw <;> simp [setTimeoutAt, clearTimeoutById, hw]

theorem handleActivity_pending_preserves (now : Nat) (s : GuardianState)
    (hinv : ∀ p ∈ s.pending, some p.id = s.timer → p.kind = TimerKind.timeoutT)
    (w : PendingTimer) (hw : w ∈ s.pending) (hk : w.kind = TimerKind.warningT) :
    w ∈ (handleActivity now s).pending := by
  rw [handleActivity]
  split
  · exact hw
  · set sa := goActive { s with lastActivity := now } with hsa
    have hpend : sa.pending = s.pending ∧ sa.timer = s.timer := by
      rw [hsa]
      unfold goActive
      split <;> simp [emit]
    rw [resetTimer_pending]
    rw [List.mem_append]
    left
    rw [hpend.2]
    cases hst : s.timer with
    | none => simpa [hpend.1] using hw
    | some hh =>
        simp only [hpend.1]
        rw [List.mem_filter]
        refine ⟨hw, ?_⟩
        have hne : w.id ≠ hh := by
          intro hid
          have hkind := hinv w hw (by rw [hst, hid])
          rw [hkind] at hk
          exact absurd hk (by simp)
        simp [hne]

/-- Claim C6 (warning-delay semantics). On every arm: when
`timeoutMs − 60000` is positive a warning delay with that fire time is
scheduled (none otherwise); re-arming cancels the previously pending
timeout delay but never cancels previously scheduled warning delays — in
particular a warning scheduled before a throttle-passing activity signal
is still pending after it and, fired while the monitor is running and not
idle, emits `warning` with `secondsRemaining = 60`. -/
theorem warning_delay_semantics (now : Nat) (s : GuardianState) :
    (timeoutMs s - 60000 > 0 →
      (⟨s.nextTimerId, now + (timeoutMs s - 60000), TimerKind.warningT⟩ : PendingTimer) ∈
        (resetTimer now s).pending) ∧
    (¬ timeoutMs s - 60000 > 0 →
      ∀ w ∈ (resetTimer now s).pending, w.kind = TimerKind.warningT → w ∈ s.pending) ∧
    ((∀ p ∈ s.pending, some p.id = s.timer → p.kind = TimerKind.timeoutT) →
      ∀ w ∈ s.pending, w.kind = TimerKind.warningT →
        w ∈ (resetTimer now s).pending) ∧
    ((∀ p ∈ s.pending, p.id < s.nextTimerId) →
      ∀ h, s.timer = some h → ∀ p ∈ s.pending, p.id = h →
        p ∉ (resetTimer now s).pending) ∧
    ((∀ p ∈ s.pending, some p.id = s.timer → p.kind = TimerKind.timeoutT) →
      ∀ w ∈ s.pending, w.kind = TimerKind.warningT →
        w ∈ (handleActivity now s).pending) ∧
    (∀ w : PendingTimer, w.kind = TimerKind.warningT → s.isRunning = true →
      s.isIdle = false →
      (fireTimer s w).events = s.events ++ [GEvent.warning 60]) := by
  refine ⟨?_, ?_, ?_, ?_, ?_, ?_⟩
  · intro hpos
    rw [resetTimer_pending, if_pos hpos]
    simp
  · intro hneg w hwmem hwk
    rw [resetTimer_pending, if_neg hneg] at hwmem
    rw [List.mem_append] at hwmem
    rcases hwmem with hl | hr
    · cases hst : s.timer with
      | none => rwa [hst] at hl
      | some hh =>
          rw [hst] at hl
          exact (List.mem_filter.mp hl).1
    · simp at hr
      rw [hr] at hwk
      simp at hwk
  · intro hinv w hwmem hwk
    rw [resetTimer_pending, List.mem_append]
    left
    cases hst : s.timer with
    | none => exact hwmem
    | some hh =>
        rw [List.mem_filter]
        refine ⟨hwmem, ?_⟩
        have hne : w.id ≠ hh := by
          intro hid
          have hkind := hinv w hwmem (by rw [hst, hid])
          rw [hkind] at hwk
          exact absurd hwk (by simp)
        simp [hne]
  · intro hfresh h hst p hpmem hpid
    rw [resetTimer_pending, hst]
    rw [List.mem_append]
    push_neg
    constructor
    · rw [List.mem_filter]
      intro hc
      have := hc.2
      simp [hpid] at this
    · have hplt := hfresh p hpmem
      split
      · intro hc
        simp at hc
        rcases hc with hc | hc <;> · rw [hc] at hplt; simp at hplt
      · intro hc
        simp at hc
        rw [hc] at hplt
        simp at hplt
  · exact handleActivity_pending_preserves now s
  · intro w hwk hrun hni
    rw [fireTimer, hwk]
    rw [runTimerCallback]
    dsimp only
    rw [if_pos ⟨by simpa using hni, by simpa using hrun⟩]
    simp [emit]

/-- Witness for `warning_delay_semantics`: a two-minute-timeout state with
one pending warning and its timeout; the warning survives a
throttle-passing activity signal at t = 5000 and fires with
`secondsRemaining = 60`. -/
theorem warning_delay_semantics_witness :
    (timeoutMs (⟨⟨2, 1000⟩, 0, false, true, some 1,
      [⟨0, 60000, TimerKind.warningT⟩, ⟨1, 120000, TimerKind.timeoutT⟩], 2, []⟩ :
      GuardianState) - 60000 > 0) ∧
    ((⟨0, 60000, TimerKind.warningT⟩ : PendingTimer) ∈
      (handleActivity 5000 (⟨⟨2, 1000⟩, 0, false, true, some 1,
        [⟨0, 60000, TimerKind.warningT⟩, ⟨1, 120000, TimerKind.timeoutT⟩], 2, []⟩ :
        GuardianState)).pending) ∧
    ((fireTimer (⟨⟨2, 1000⟩, 0, false, true, some 1,
        [⟨0, 60000, TimerKind.warningT⟩, ⟨1, 120000, TimerKind.timeoutT⟩], 2, []⟩ :
        GuardianState) ⟨0, 60000, TimerKind.warningT⟩).events =
      [GEvent.warning 60]) := by
  refine ⟨by decide, ?_, ?_⟩
  · exact (warning_delay_semantics 5000 _).2.2.2.2.1 (by decide)
      ⟨0, 60000, TimerKind.warningT⟩ (by decide) (by decide)
  · exact (warning_delay_semantics 5000 _).2.2.2.2.2
      ⟨0, 60000, TimerKind.warningT⟩ (by decide) (by decide) (by decide)

theorem advanceTo_none (t : Nat) (s : GuardianState)
    (h : minDue t s.pending = none) : advanceTo t s = s := by
  rw [advanceTo]
  split
  · rfl
  · rename_i p hp
    rw [h] at hp
    exact absurd hp (by simp)

theorem advanceTo_some (t : Nat) (s : GuardianState) (p : PendingTimer)
    (h : minDue t s.pending = some p) :
    advanceTo t s = advanceTo t (fireTimer s p) := by
  rw [advanceTo]
  split
  · rename_i hn
    rw [h] at hn
    exact absurd hn (by simp)
  · rename_i p' hp'
    rw [h] at hp'
    injection hp' with hp'
    rw [hp']

theorem advanceTo_stopped (t : Nat) : ∀ n (s : GuardianState), s.pending.length ≤ n →
    s.isRunning = false → (∀ p ∈ s.pending, p.kind ≠ TimerKind.timeoutT) →
    (advanceTo t s).isIdle = s.isIdle ∧ (advanceTo t s).events = s.events := by
  intro n
  induction n with
  | zero =>
      intro s hl hrun hto
      have hpe : s.pending = [] := List.length_eq_zero.mp (by omega)
      rw [advanceTo_none t s (by rw [hpe]; rfl)]
      exact ⟨rfl, rfl⟩
  | succ n ih =>
      intro s hl hrun hto
      cases hm : minDue t s.pending with
      | none =>
          rw [advanceTo_none t s hm]
          exact ⟨rfl, rfl⟩
      | some p =>
          rw [advanceTo_some t s p hm]
          have hpmem := minDue_mem t s.pending p hm
          have hpk : p.kind = TimerKind.warningT := by
            cases hk : p.kind with
            | warningT => rfl
            | timeoutT => exact absurd hk (hto p hpmem)
          have hfire : fireTimer s p =
              { s with pending := s.pending.filter fun q => ! (q.id == p.id) } := by
            rw [fireTimer, hpk, runTimerCallback]
            dsimp only
            rw [if_neg]
            intro hc
            rw [hrun] at hc
            exact absurd hc.2 (by simp)
          rw [hfire]
          have hlt : (s.pending.filter fun q => ! (q.id == p.id)).length <
              s.pending.length := by
            rw [List.length_filter_lt_length_iff_exists]
            exact ⟨p, hpmem, by simp⟩
          have hres := ih { s with pending := s.pending.filter fun q => ! (q.id == p.id) }
            (by simpa using (by omega : (s.pending.filter fun q => ! (q.id == p.id)).length ≤ n))
            hrun
            (fun q hq => hto q (List.mem_filter.mp hq).1)
          exact hres

/-- Timer bookkeeping invariant of every reachable guardian state: pending
ids are below the id counter, the tracked handle is below the counter, every
pending timeout delay is the tracked handle, and the tracked handle only
points at a timeout delay. The hypotheses of the claim theorems above are
components of it. -/
def GInv (s : GuardianState) : Prop :=
  (∀ p ∈ s.pending, p.id < s.nextTimerId) ∧
  (∀ h, s.timer = some h → h < s.nextTimerId) ∧
  (∀ p ∈ s.pending, p.kind = TimerKind.timeoutT → some p.id = s.timer) ∧
  (∀ p ∈ s.pending, some p.id = s.timer → p.kind = TimerKind.timeoutT)

theorem ginv_initial (cfg : GuardianConfig) (now : Nat) :
    GInv (initialGuardian cfg now) := by
  refine ⟨?_, ?_, ?_, ?_⟩ <;> intro p hp <;> simp [initialGuardian] at hp

theorem resetTimer_shape (now : Nat) (s : GuardianState) :
    (timeoutMs s - 60000 > 0 ∧
      (resetTimer now s).timer = some (s.nextTimerId + 1) ∧
      (resetTimer now s).nextTimerId = s.nextTimerId + 2) ∨
    (¬ timeoutMs s - 60000 > 0 ∧
      (resetTimer now s).timer = some s.nextTimerId ∧
      (resetTimer now s).nextTimerId = s.nextTimerId + 1) := by
  by_cases hw : timeoutMs s - 60000 > 0
  · left
    refine ⟨hw, ?_, ?_⟩ <;>
      · rw [resetTimer]
        cases hst : s.timer <;> simp [setTimeoutAt, clearTimeoutById, hw]
  · right
    refine ⟨hw, ?_, ?_⟩ <;>
      · rw [resetTimer]
        cases hst : s.timer <;> simp [setTimeoutAt, clearTimeoutById, hw]

theorem pending_old_mem (s : GuardianState) (p : PendingTimer)
    (hp : p ∈ (match s.timer with
      | some h => s.pending.filter fun (q : PendingTimer) => ! (q.id == h)
      | none => s.pending)) : p ∈ s.pending := by
  cases hst : s.timer <;> rw [hst] at hp
  · exact hp
  · exact (List.mem_filter.mp hp).1

theorem ginv_resetTimer (now : Nat) (s : GuardianState) (hg : GInv s) :
    GInv (resetTimer now s) := by
  obtain ⟨h1, h2, h3, h4⟩ := hg
  have hpend := resetTimer_pending now s
  have hnoto : ∀ p ∈ (match s.timer with
      | some h => s.pending.filter fun (q : PendingTimer) => ! (q.id == h)
      | none => s.pending), p.kind ≠ TimerKind.timeoutT := by
    intro p hp hk
    have hmem := pending_old_mem s p hp
    have hh := h3 p hmem hk
    cases hst : s.timer with
    | none => rw [hst] at hh; exact absurd hh (by simp)
    | some h0 =>
        rw [hst] at hh hp
        injection hh with hh
        have := (List.mem_filter.mp hp).2
        rw [hh] at this
        simp at this
  rcases resetTimer_shape now s with ⟨hw, htm, hnx⟩ | ⟨hw, htm, hnx⟩
  · rw [if_pos hw] at hpend
    refine ⟨?_, ?_, ?_, ?_⟩
    · intro p hp
      rw [hpend, List.mem_append] at hp
      rw [hnx]
      rcases hp with hp | hp
      · have := h1 p (pending_old_mem s p hp)
        omega
      · simp at hp
        rcases hp with hp | hp <;> rw [hp] <;> simp
    · intro h hh
      rw [htm] at hh
      injection hh with hh
      rw [hnx, ← hh]
      omega
    · intro p hp hk
      rw [hpend, List.mem_append] at hp
      rcases hp with hp | hp
      · exact absurd hk (hnoto p hp)
      · simp at hp
        rcases hp with hp | hp
        · rw [hp] at hk
          simp at hk
        · rw [hp, htm]
    · intro p hp hid
      rw [htm] at hid
      rw [Option.some.injEq] at hid
      rw [hpend, List.mem_append] at hp
      rcases hp with hp | hp
      · have := h1 p (pending_old_mem s p hp)
        omega
      · simp at hp
        rcases hp with hp | hp
        · rw [hp] at hid
          simp at hid
        · rw [hp]
  · rw [if_neg hw] at hpend
    refine ⟨?_, ?_, ?_, ?_⟩
    · intro p hp
      rw [hpend, List.mem_append] at hp
      rw [hnx]
      rcases hp with hp | hp
      · have := h1 p (pending_old_mem s p hp)
        omega
      · simp at hp
        rw [hp]
        simp
    · intro h hh
      rw [htm] at hh
      injection hh with hh
      rw [hnx, ← hh]
      omega
    · intro p hp hk
      rw [hpend, List.mem_append] at hp
      rcases hp with hp | hp
      · exact absurd hk (hnoto p hp)
      · simp at hp
        rw [hp, htm]
    · intro p hp hid
      rw [htm] at hid
      rw [Option.some.injEq] at hid
      rw [hpend, List.mem_append] at hp
      rcases hp with hp | hp
      · have := h1 p (pending_old_mem s p hp)
        omega
      · simp at hp
        rw [hp]

theorem ginv_fields_eq (s s2 : GuardianState) (hp : s2.pending = s.pending)
    (ht : s2.timer = s.timer) (hn : s2.nextTimerId = s.nextTimerId) (hg : GInv s) :
    GInv s2 := by
  obtain ⟨h1, h2, h3, h4⟩ := hg
  refine ⟨?_, ?_, ?_, ?_⟩
  · intro p hpm
    rw [hp] at hpm
    rw [hn]
    exact h1 p hpm
  · intro h hh
    rw [ht] at hh
    rw [hn]
    exact h2 h hh
  · intro p hpm hk
    rw [hp] at hpm
    rw [ht]
    exact h3 p hpm hk
  · intro p hpm hid
    rw [hp] at hpm
    rw [ht] at hid
    exact h4 p hpm hid

theorem ginv_goActive_lastActivity (now : Nat) (s : GuardianState) (hg : GInv s) :
    GInv (goActive { s with lastActivity := now }) := by
  refine ginv_fields_eq s _ ?_ ?_ ?_ hg <;>
    · unfold goActive
      split <;> simp [emit]

theorem ginv_handleActivity (now : Nat) (s : GuardianState) (hg : GInv s) :
    GInv (handleActivity now s) := by
  rw [handleActivity]
  split
  · exact hg
  · exact ginv_resetTimer now _ (ginv_goActive_lastActivity now s hg)

theorem ginv_reset (now : Nat) (s : GuardianState) (hg : GInv s) :
    GInv (reset now s) :=
  ginv_resetTimer now _ (ginv_goActive_lastActivity now s hg)

theorem ginv_start (now : Nat) (s : GuardianState) (hg : GInv s) :
    GInv (start now s) := by
  rw [start]
  split
  · exact hg
  · exact ginv_resetTimer now _ (ginv_fields_eq s _ rfl rfl rfl hg)

theorem ginv_triggerIdle (s : GuardianState) (hg : GInv s) :
    GInv (triggerIdle s) := by
  refine ginv_fields_eq s _ ?_ ?_ ?_ hg <;>
    · rw [triggerIdle]
      split <;> simp [emit]

theorem ginv_handleVisibilityChange (now : Nat) (hidden : Bool) (s : GuardianState)
    (hg : GInv s) : GInv (handleVisibilityChange now hidden s) := by
  have hemit : GInv (emit (GEvent.visibilityChange hidden) s) :=
    ginv_fields_eq s _ rfl rfl rfl hg
  rw [handleVisibilityChange]
  split
  · exact hemit
  · split
    · exact ginv_triggerIdle _ hemit
    · exact ginv_handleActivity now _ hemit

theorem ginv_stop (s : GuardianState) (hg : GInv s) : GInv (stop s) := by
  obtain ⟨h1, h2, h3, h4⟩ := hg
  rw [stop]
  split
  · exact ⟨h1, h2, h3, h4⟩
  · cases hst : s.timer with
    | none =>
        refine ⟨h1, ?_, ?_, ?_⟩
        · intro h hh
          simp at hh
        · intro p hp hk
          have := h3 p hp hk
          rw [hst] at this
          exact absurd this (by simp)
        · intro p hp hid
          simp at hid
    | some h0 =>
        refine ⟨?_, ?_, ?_, ?_⟩
        · intro p hp
          simp only [clearTimeoutById] at hp
          exact h1 p (List.mem_filter.mp hp).1
        · intro h hh
          simp at hh
        · intro p hp hk
          simp only [clearTimeoutById] at hp
          rw [List.mem_filter] at hp
          have := h3 p hp.1 hk
          rw [hst] at this
          injection this with this
          have hcond := hp.2
          rw [this] at hcond
          simp at hcond
        · intro p hp hid
          simp at hid

theorem ginv_fireTimer (s : GuardianState) (p : PendingTimer) (hg : GInv s) :
    GInv (fireTimer s p) := by
  obtain ⟨h1, h2, h3, h4⟩ := hg
  have hframe : (fireTimer s p).pending =
        (s.pending.filter fun q => ! (q.id == p.id)) ∧
      (fireTimer s p).timer = s.timer ∧
      (fireTimer s p).nextTimerId = s.nextTimerId := by
    rw [fireTimer]
    cases p.kind with
    | timeoutT =>
        rw [runTimerCallback, triggerIdle]
        split <;> simp [emit]
    | warningT =>
        rw [runTimerCallback]
        split <;> simp [emit]
  refine ⟨?_, ?_, ?_, ?_⟩
  · intro q hq
    rw [hframe.1] at hq
    rw [hframe.2.2]
    exact h1 q (List.mem_filter.mp hq).1
  · intro h hh
    rw [hframe.2.1] at hh
    rw [hframe.2.2]
    exact h2 h hh
  · intro q hq hk
    rw [hframe.1] at hq
    rw [hframe.2.1]
    exact h3 q (List.mem_filter.mp hq).1 hk
  · intro q hq hid
    rw [hframe.1] at hq
    rw [hframe.2.1] at hid
    exact h4 q (List.mem_filter.mp hq).1 hid

theorem ginv_advanceTo (t : Nat) : ∀ n (s : GuardianState), s.pending.length ≤ n →
    GInv s → GInv (advanceTo t s) := by
  intro n
  induction n with
  | zero =>
      intro s hl hg
      have hpe : s.pending = [] := List.length_eq_zero.mp (by omega)
      rw [advanceTo_none t s (by rw [hpe]; rfl)]
      exact hg
  | succ n ih =>
      intro s hl hg
      cases hm : minDue t s.pending with
      | none =>
          rw [advanceTo_none t s hm]
          exact hg
      | some p =>
          rw [advanceTo_some t s p hm]
          have hpmem := minDue_mem t s.pending p hm
          have hlt : (s.pending.filter fun q => ! (q.id == p.id)).length <
              s.pending.length := by
            rw [List.length_filter_lt_length_iff_exists]
            exact ⟨p, hpmem, by simp⟩
          apply ih
          · rw [fireTimer, runTimerCallback_pending]
            simp only
            omega
          · exact ginv_fireTimer s p hg

/-- Claim C8 (stop suppresses idle). On a running monitor, `stop()` cancels
the pending timeout delay, preserves `isIdle` and `lastActivity`, is
idempotent, and afterwards advancing the clock arbitrarily far fires no
`idle` event and never changes `isIdle`. -/
theorem stop_suppresses_idle (s : GuardianState)
    (hrun : s.isRunning = true)
    (hinv : ∀ p ∈ s.pending, p.kind = TimerKind.timeoutT → some p.id = s.timer) :
    stop (stop s) = stop s ∧
    (stop s).isIdle = s.isIdle ∧
    (stop s).lastActivity = s.lastActivity ∧
    (∀ p ∈ (stop s).pending, p.kind ≠ TimerKind.timeoutT) ∧
    (∀ t, (advanceTo t (stop s)).isIdle = s.isIdle ∧
          (advanceTo t (stop s)).events = s.events) := by
  have hstop : stop s = (match s.timer with
      | some h => { clearTimeoutById h { s with isRunning := false } with timer := none }
      | none => { s with isRunning := false }) := by
    rw [stop, if_neg (by simp [hrun])]
  have hfields : (stop s).isIdle = s.isIdle ∧ (stop s).lastActivity = s.lastActivity ∧
      (stop s).isRunning = false ∧ (stop s).events = s.events := by
    rw [hstop]
    cases s.timer <;> exact ⟨rfl, rfl, rfl, rfl⟩
  have hnto : ∀ p ∈ (stop s).pending, p.kind ≠ TimerKind.timeoutT := by
    rw [hstop]
    cases hst : s.timer with
    | none =>
        intro p hp hk
        have := hinv p hp hk
        rw [hst] at this
        exact absurd this (by simp)
    | some hh =>
        intro p hp hk
        simp only [clearTimeoutById] at hp
        rw [List.mem_filter] at hp
        have := hinv p hp.1 hk
        rw [hst] at this
        injection this with this
        have h2 := hp.2
        rw [this] at h2
        simp at h2
  refine ⟨?_, hfields.1, hfields.2.1, hnto, ?_⟩
  · rw [stop]
    split
    · rfl
    · rename_i hc
      exact absurd hfields.2.2.1 (by simpa using hc)
  · intro t
    have := advanceTo_stopped t (stop s).pending.length (stop s) (Nat.le_refl _)
      hfields.2.2.1 hnto
    rw [hfields.1] at this
    rw [hfields.2.2.2] at this
    exact this

/-- Witness for `stop_suppresses_idle`: a monitor started at t = 0 with a
one-minute timeout, stopped immediately; advancing to t = 10 minutes
leaves it non-idle with no events fired. -/
theorem stop_suppresses_idle_witness :
    ((start 0 (initialGuardian ⟨1, 1000⟩ 0)).isRunning = true) ∧
    ((advanceTo 600000 (stop (start 0 (initialGuardian ⟨1, 1000⟩ 0)))).isIdle = false) ∧
    ((advanceTo 600000 (stop (start 0 (initialGuardian ⟨1, 1000⟩ 0)))).events = []) := by
  refine ⟨by decide, ?_, ?_⟩
  · exact ((stop_suppresses_idle (start 0 (initialGuardian ⟨1, 1000⟩ 0)) (by decide)
      (by decide)).2.2.2.2 600000).1
  · exact ((stop_suppresses_idle (start 0 (initialGuardian ⟨1, 1000⟩ 0)) (by decide)
      (by decide)).2.2.2.2 600000).2

end SessionGuardian

/-! ### DeviceFingerprinter (src/packages/core/src/DeviceFingerprinter.ts) -/

/-- The `DeviceFingerprint` record of types.ts. Numeric fields are `Int`,
nullable fields are `Option`. -/
structure DeviceFingerprint where
  screenResolution : String
  colorDepth : Int
  timezoneOffset : Int
  timezone : String
  language : String
  languages : List String
  platform : String
  hardwareConcurrency : Int
  deviceMemory : Option Int
  touchSupport : Bool
  canvasHash : Option String
  webglRenderer : Option String
  webglVendor : Option String
  collectedAt : String
deriving DecidableEq, Repr

/-- The eight keys listed in `fieldsToCompare` in `compare`. -/
inductive FpField
  | screenResolution
  | colorDepth
  | timezone
  | language
  | platform
  | hardwareConcurrency
  | canvasHash
  | webglRenderer
deriving DecidableEq, Repr

/-- `fieldsToCompare`, in source order. -/
def fieldsToCompare : List FpField :=
  [FpField.screenResolution, FpField.colorDepth, FpField.timezone, FpField.language,
   FpField.platform, FpField.hardwareConcurrency, FpField.canvasHash,
   FpField.webglRenderer]

/-- The string pushed into `mismatches` for each field. -/
def fieldName : FpField → String
  | FpField.screenResolution => "screenResolution"
  | FpField.colorDepth => "colorDepth"
  | FpField.timezone => "timezone"
  | FpField.language => "language"
  | FpField.platform => "platform"
  | FpField.hardwareConcurrency => "hardwareConcurrency"
  | FpField.canvasHash => "canvasHash"
  | FpField.webglRenderer => "webglRenderer"

/-- `current[field] === previous[field]`: exact per-field equality
(`null === null` is true via the `Option` equality). -/
def fieldEq (f : FpField) (c p : DeviceFingerprint) : Bool :=
  match f with
  | FpField.screenResolution => c.screenResolution == p.screenResolution
  | FpField.colorDepth => c.colorDepth == p.colorDepth
  | FpField.timezone => c.timezone == p.timezone
  | FpField.language => c.language == p.language
  | FpField.platform => c.platform == p.platform
  | FpField.hardwareConcurrency => c.hardwareConcurrency == p.hardwareConcurrency
  | FpField.canvasHash => c.canvasHash == p.canvasHash
  | FpField.webglRenderer => c.webglRenderer == p.webglRenderer

/-- `FingerprintComparisonResult` of types.ts; `similarity` is the exact
rational `matches / fieldsToCompare.length` (these quotients of small
powers of two are exact in JavaScript floats as well). -/
structure FingerprintComparisonResult where
  similarity : ℚ
  mismatches : List String
deriving DecidableEq, Repr

namespace DeviceFingerprinter

/-- `compare(current, previous)`: the loop over `fieldsToCompare`. -/
def compare (current previous : DeviceFingerprint) : FingerprintComparisonResult :=
  let acc := fieldsToCompare.foldl
    (fun acc f =>
      if fieldEq f current previous then (acc.1 + 1, acc.2)
      else (acc.1, acc.2 ++ [fieldName f]))
    ((0 : Nat), ([] : List String))
  { similarity := (acc.1 : ℚ) / (fieldsToCompare.length : ℚ), mismatches := acc.2 }

theorem compare_foldl (c p : DeviceFingerprint) (fs : List FpField) :
    ∀ n ms, fs.foldl
      (fun acc f =>
        if fieldEq f c p then (acc.1 + 1, acc.2)
        else (acc.1, acc.2 ++ [fieldName f])) (n, ms) =
      (n + (fs.filter fun f => fieldEq f c p).length,
       ms ++ (fs.filter fun f => ! fieldEq f c p).map fieldName) := by
  induction fs with
  | nil => intro n ms; simp
  | cons f fs ih =>
      intro n ms
      rw [List.foldl_cons]
      by_cases hf : fieldEq f c p
      · rw [if_pos hf]
        rw [ih]
        simp [hf, Nat.add_comm, Nat.add_assoc, Nat.add_left_comm]
      · rw [if_neg hf]
        rw [ih]
        simp at hf
        simp [hf]

theorem length_filter_split (l : List FpField) (pr : FpField → Bool) :
    (l.filter pr).length + (l.filter fun a => ! pr a).length = l.length := by
  induction l with
  | nil => simp
  | cons a l ih =>
      by_cases h : pr a
      · simp [List.filter_cons, h, ← ih]
        omega
      · simp at h
        simp [List.filter_cons, h, ← ih]
        omega

/-- Claim C9 (fingerprint comparison). `compare` inspects exactly the eight
designated fields: `mismatches` is the non-matching field names in the
fixed source order, `similarity` is the matching-field count over 8
(equivalently `(8 − |mismatches|) / 8`), equality is exact per field with
`null == null` true, and the excluded fields (timestamp, languages list,
device memory, touch support, timezone offset, WebGL vendor) never affect
the result. -/
theorem fingerprint_compare_spec (c p : DeviceFingerprint) :
    ((DeviceFingerprinter.compare c p).mismatches =
      (fieldsToCompare.filter fun f => ! fieldEq f c p).map fieldName) ∧
    ((DeviceFingerprinter.compare c p).similarity =
      ((fieldsToCompare.filter fun f => fieldEq f c p).length : ℚ) / 8) ∧
    ((DeviceFingerprinter.compare c p).similarity =
      ((8 - (DeviceFingerprinter.compare c p).mismatches.length : ℕ) : ℚ) / 8) ∧
    (c.canvasHash = none → p.canvasHash = none →
      fieldEq FpField.canvasHash c p = true) ∧
    (∀ tzo langs dm touch wv ca tzo2 langs2 dm2 touch2 wv2 ca2,
      DeviceFingerprinter.compare
        { c with
            timezoneOffset := tzo
            languages := langs
            deviceMemory := dm
            touchSupport := touch
            webglVendor := wv
            collectedAt := ca }
        { p with
            timezoneOffset := tzo2
            languages := langs2
            deviceMemory := dm2
            touchSupport := touch2
            webglVendor := wv2
            collectedAt := ca2 } =
      DeviceFingerprinter.compare c p) := by
  have hchar := DeviceFingerprinter.compare_foldl c p fieldsToCompare 0 []
  have hmm : (DeviceFingerprinter.compare c p).mismatches =
      (fieldsToCompare.filter fun f => ! fieldEq f c p).map fieldName := by
    rw [DeviceFingerprinter.compare]
    dsimp only
    rw [hchar]
    simp
  have hsim : (DeviceFingerprinter.compare c p).similarity =
      ((fieldsToCompare.filter fun f => fieldEq f c p).length : ℚ) / 8 := by
    rw [DeviceFingerprinter.compare]
    dsimp only
    rw [hchar]
    simp [fieldsToCompare]
  refine ⟨hmm, hsim, ?_, ?_, ?_⟩
  · rw [hsim, hmm]
    have hsum := length_filter_split fieldsToCompare (fun f => fieldEq f c p)
    rw [List.length_map]
    have h8 : fieldsToCompare.length = 8 := rfl
    rw [h8] at hsum
    congr 1
    have : (fieldsToCompare.filter fun f => fieldEq f c p).length =
        8 - (fieldsToCompare.filter fun f => ! fieldEq f c p).length := by omega
    rw [this]
  · intro hc hp
    rw [fieldEq]
    rw [hc, hp]
    rfl
  · intro tzo langs dm touch wv ca tzo2 langs2 dm2 touch2 wv2 ca2
    have hfe : ∀ f,
        fieldEq f
          { c with
              timezoneOffset := tzo
              languages := langs
              deviceMemory := dm
              touchSupport := touch
              webglVendor := wv
              collectedAt := ca }
          { p with
              timezoneOffset := tzo2
              languages := langs2
              deviceMemory := dm2
              touchSupport := touch2
              webglVendor := wv2
              collectedAt := ca2 } = fieldEq f c p := by
      intro f
      cases f <;> rfl
    rw [DeviceFingerprinter.compare, DeviceFingerprinter.compare]
    rw [DeviceFingerprinter.compare_foldl, DeviceFingerprinter.compare_foldl]
    have hfilter1 : (fieldsToCompare.filter fun f =>
        fieldEq f
          { c with
              timezoneOffset := tzo
              languages := langs
              deviceMemory := dm
              touchSupport := touch
              webglVendor := wv
              collectedAt := ca }
          { p with
              timezoneOffset := tzo2
              languages := langs2
              deviceMemory := dm2
              touchSupport := touch2
              webglVendor := wv2
              collectedAt := ca2 }) =
        (fieldsToCompare.filter fun f => fieldEq f c p) := by
      apply List.filter_congr
      intro f _
      rw [hfe]
    have hfilter2 : (fieldsToCompare.filter fun f =>
        ! fieldEq f
          { c with
              timezoneOffset := tzo
              languages := langs
              deviceMemory := dm
              touchSupport := touch
              webglVendor := wv
              collectedAt := ca }
          { p with
              timezoneOffset := tzo2
              languages := langs2
              deviceMemory := dm2
              touchSupport := touch2
              webglVendor := wv2
              collectedAt := ca2 }) =
        (fieldsToCompare.filter fun f => ! fieldEq f c p) := by
      apply List.filter_congr
      intro f _
      rw [hfe]
    rw [hfilter1, hfilter2]

/-- Witness for `fingerprint_compare_spec`: identical concrete fingerprints
compare to similarity 1 with no mismatches, and the null-canvas case counts
as a match. -/
theorem fingerprint_compare_spec_witness :
    ((DeviceFingerprinter.compare
      ⟨"1920x1080", 24, 0, "UTC", "en", ["en"], "linux", 4, none, false, none, none,
        none, "t0"⟩
      ⟨"1920x1080", 24, 0, "UTC", "en", ["en"], "linux", 4, none, false, none, none,
        none, "t0"⟩).similarity = 1) ∧
    (fieldEq FpField.canvasHash
      ⟨"1920x1080", 24, 0, "UTC", "en", ["en"], "linux", 4, none, false, none, none,
        none, "t0"⟩
      ⟨"1920x1080", 24, 0, "UTC", "en", ["en"], "linux", 4, none, false, none, none,
        none, "t0"⟩ = true) := by
  constructor
  · rw [(fingerprint_compare_spec _ _).2.1]
    show ((8 : Nat) : ℚ) / 8 = 1
    norm_num
  · exact (fingerprint_compare_spec _ _).2.2.2.1 rfl rfl

end DeviceFingerprinter

end Nis2
